import Mathlib

/-!
Verification development for the content-selection pipeline of the
CheatSheet-of-Numbers repository (src/tools/wikipedia_ja.py and
src/tools/generate_numbers.py).

The Python source is shallowly embedded: strings are Lean `String`s
(lists of Unicode code points, matching Python `str` semantics for
indexing/length), Python `int` is `Int` (or `Nat` where the source
guarantees non-negativity), Python dicts are association lists with
insertion-order update semantics, raised exceptions are `Except`,
and network calls are oracle functions passed as parameters.
Floating point `math.log10`/`math.ceil`/`round` combinations are
embedded by their exact real-valued counterparts, expressed through
`Nat.clog` (ceiling base-10 logarithm); the borderline cases where a
double-precision computation could differ from the exact real value
are powers of ten, on which the C library log10 is exact.
-/

/-- Character class of Python's regex `\s` / `str.strip` whitespace
(ASCII whitespace plus the Unicode whitespace code points that can
occur in practice). -/
def isSpaceChar (c : Char) : Bool :=
  c = ' ' || c = '\t' || c = '\n' || c = '\r' || c = '\x0b' || c = '\x0c' ||
  c.toNat = 0x1c || c.toNat = 0x1d || c.toNat = 0x1e || c.toNat = 0x1f ||
  c.toNat = 0x85 || c.toNat = 0xa0 || c.toNat = 0x1680 ||
  (0x2000 ≤ c.toNat && c.toNat ≤ 0x200a) ||
  c.toNat = 0x2028 || c.toNat = 0x2029 || c.toNat = 0x202f ||
  c.toNat = 0x205f || c.toNat = 0x3000

/-- One pass of `re.sub(r"\s+", " ", text)`: every maximal run of
whitespace becomes a single ASCII space.  `prevSpace` records whether
the previous character belonged to a whitespace run. -/
def squeezeWs (prevSpace : Bool) : List Char → List Char
  | [] => []
  | c :: cs =>
    if isSpaceChar c then
      if prevSpace then squeezeWs true cs else ' ' :: squeezeWs true cs
    else c :: squeezeWs false cs

/-- Python `str.strip()` on a character list. -/
def pyStrip (l : List Char) : List Char :=
  ((l.dropWhile isSpaceChar).reverse.dropWhile isSpaceChar).reverse

/-- Embedding of `_clean_text` (src/tools/wikipedia_ja.py, lines 90-94):
replace non-breaking spaces by spaces, collapse whitespace runs, strip. -/
def clean_text (s : String) : String :=
  ⟨pyStrip (squeezeWs false (s.data.map (fun c => if c = '\u00A0' then ' ' else c)))⟩

/-- Python `str.strip()` on a Lean string. -/
def pyStripStr (s : String) : String := ⟨pyStrip s.data⟩

/-- Boolean test that `needle` is a prefix of `hay`. -/
def listPrefixEq : List Char → List Char → Bool
  | [], _ => true
  | _ :: _, [] => false
  | a :: as, b :: bs => a = b && listPrefixEq as bs

/-- Boolean test for Python's `needle in hay` substring operator. -/
def listContainsSub (needle : List Char) : List Char → Bool
  | [] => listPrefixEq needle []
  | c :: rest => listPrefixEq needle (c :: rest) || listContainsSub needle rest

/-- Python's `needle in hay` on strings. -/
def substrOf (needle hay : String) : Bool := listContainsSub needle.data hay.data

/-- Character class of the regex range `[ァ-ヴー]` (katakana plus the
prolonged sound mark). -/
def isKatakanaChar (c : Char) : Bool :=
  (0x30A1 ≤ c.toNat && c.toNat ≤ 0x30F4) || c.toNat = 0x30FC

/-- Test for the regex `[ァ-ヴー]{4,}`: some four consecutive
katakana-range characters. -/
def hasKatakanaRun4 : List Char → Bool
  | a :: b :: c :: d :: rest =>
    (isKatakanaChar a && isKatakanaChar b && isKatakanaChar c && isKatakanaChar d) ||
      hasKatakanaRun4 (b :: c :: d :: rest)
  | _ => false

/-- ASCII digit test (regex `[0-9]`). -/
def isAsciiDigit (c : Char) : Bool := '0' ≤ c && c ≤ '9'

/-- Leftmost match of `re.search(r"[『「]([^『「』」]{2,40})[』」]", s)`,
returning the capture group.  The interior of the bracket pair cannot
contain any of the four bracket characters, so the greedy quantifier
deterministically matches the maximal bracket-free run, which must be
2-40 characters long and be followed by a closing bracket. -/
def findQuoted : List Char → Option (List Char)
  | [] => none
  | c :: rest =>
    if c = '『' || c = '「' then
      let run := rest.takeWhile (fun d => !(d = '『' || d = '「' || d = '』' || d = '」'))
      let after := rest.drop run.length
      if 2 ≤ run.length && run.length ≤ 40 &&
          (match after with
           | d :: _ => d = '』' || d = '」'
           | [] => false) then
        some run
      else findQuoted rest
    else findQuoted rest

/-- Leftmost match of `re.search(r"([ァ-ヴー]{4,30})", s)`: at the first
position where four consecutive katakana-range characters start, the
greedy quantifier takes the maximal run capped at 30. -/
def findKatakanaRun : List Char → Option (List Char)
  | a :: b :: c :: d :: rest =>
    if isKatakanaChar a && isKatakanaChar b && isKatakanaChar c && isKatakanaChar d then
      some (((a :: b :: c :: d :: rest).takeWhile isKatakanaChar).take 30)
    else findKatakanaRun (b :: c :: d :: rest)
  | _ => none

/-- The `(?:-\d+)*` suffix groups of the ISO pattern: greedily consume
repeated hyphen-plus-digit-run groups.  `fuel` is an upper bound on the
number of consumed characters (each group consumes at least two). -/
def isoGroups : Nat → List Char → List Char
  | 0, _ => []
  | fuel + 1, '-' :: rest =>
    let ds := rest.takeWhile isAsciiDigit
    if ds.length ≥ 1 then '-' :: (ds ++ isoGroups fuel (rest.drop ds.length)) else []
  | _ + 1, _ => []

/-- Leftmost match of `re.search(r"(ISO\s*\d{3,6}(?:-\d+)*)", s)`,
returning the full capture group (spaces included; the source removes
them afterwards).  The digit quantifier greedily takes at most six
digits of the maximal digit run, which must have length at least 3. -/
def findISO : List Char → Option (List Char)
  | [] => none
  | c :: rest =>
    if c = 'I' && listPrefixEq ['S', 'O'] rest then
      let rest2 := rest.drop 2
      let sp := rest2.takeWhile isSpaceChar
      let afterSp := rest2.drop sp.length
      let digs := afterSp.takeWhile isAsciiDigit
      if digs.length ≥ 3 then
        let taken := digs.take 6
        let afterDigs := afterSp.drop taken.length
        some ('I' :: 'S' :: 'O' :: (sp ++ taken ++ isoGroups afterDigs.length afterDigs))
      else findISO rest
    else findISO rest

/-- Uppercase ASCII letter test (regex `[A-Z]`). -/
def isUpperAscii (c : Char) : Bool := 'A' ≤ c && c ≤ 'Z'

/-- Leftmost match of `re.search(r"(JIS\s*[A-Z]\s*\d{3,6})", s)`,
returning the full capture group (the source cleans it afterwards). -/
def findJIS : List Char → Option (List Char)
  | [] => none
  | c :: rest =>
    if c = 'J' && listPrefixEq ['I', 'S'] rest then
      let rest2 := rest.drop 2
      let sp1 := rest2.takeWhile isSpaceChar
      let afterSp1 := rest2.drop sp1.length
      match afterSp1 with
      | u :: rest3 =>
        if isUpperAscii u then
          let sp2 := rest3.takeWhile isSpaceChar
          let afterSp2 := rest3.drop sp2.length
          let digs := afterSp2.takeWhile isAsciiDigit
          if digs.length ≥ 3 then
            some ('J' :: 'I' :: 'S' :: (sp1 ++ u :: (sp2 ++ digs.take 6)))
          else findJIS rest
        else findJIS rest
      | [] => findJIS rest
    else findJIS rest

/-- Embedding of `_extract_scoring_term` (wikipedia_ja.py, lines 388-419):
prefer a quoted title, then a katakana run, then an ISO code, then a
JIS code; each candidate is length-checked after stripping, falling
through to the next pattern on failure. -/
def extract_scoring_term (text : String) : Option String :=
  let s := clean_text text
  if s.data.isEmpty then none
  else
    let quoted : Option String :=
      match findQuoted s.data with
      | some run =>
        let term := pyStrip run
        if 2 ≤ term.length && term.length ≤ 40 then some ⟨term⟩ else none
      | none => none
    match quoted with
    | some t => some t
    | none =>
      let kat : Option String :=
        match findKatakanaRun s.data with
        | some run =>
          let term := pyStrip run
          if 4 ≤ term.length && term.length ≤ 30 then some ⟨term⟩ else none
        | none => none
      match kat with
      | some t => some t
      | none =>
        match findISO s.data with
        | some g => some ⟨g.filter (fun c => !(c = ' '))⟩
        | none =>
          match findJIS s.data with
          | some g => some (clean_text ⟨g⟩)
          | none => none

/-- Association-list lookup with Python-dict semantics (keys are unique
in any list built through `alistUpdate`). -/
def alistLookup {α β : Type} [DecidableEq α] : List (α × β) → α → Option β
  | [], _ => none
  | (k0, v0) :: rest, k => if k0 = k then some v0 else alistLookup rest k

/-- Association-list update with Python-dict semantics: an existing key
keeps its position, a new key is appended. -/
def alistUpdate {α β : Type} [DecidableEq α] : List (α × β) → α → β → List (α × β)
  | [], k, v => [(k, v)]
  | (k0, v0) :: rest, k, v =>
    if k0 = k then (k0, v) :: rest else (k0, v0) :: alistUpdate rest k v

/-- Module constant `_IMPORTANCE_THRESHOLD` (wikipedia_ja.py, line 290). -/
def IMPORTANCE_THRESHOLD : Int := 30

/-- Module constant `_MAX_SEARCH_QUERIES_PER_NUMBER` (line 291). -/
def MAX_SEARCH_QUERIES_PER_NUMBER : Nat := 6

/-- The keyword table `_PROPERTY_KEYWORDS` (lines 1051-1075). -/
def PROPERTY_KEYWORDS : List String :=
  ["平方数", "立方数", "円周率", "近似", "誤差", "π", "√", "平方根",
   "円周", "点", "領域", "下", "末尾", "桁", "ゾロ目", "唯一",
   "ただ一つ", "のみ", "だけ", "合同", "剰余", "mod", "互いに"]

/-- The keyword table `_OTHER_KEYWORDS` (lines 1207-1224). -/
def OTHER_KEYWORDS : List String :=
  ["原子番号", "元素", "作品", "小説", "映画", "アニメ", "ゲーム", "漫画",
   "曲", "アルバム", "誕生", "事件", "事故", "条約", "規格", "コード"]

/-- Embedding of `_heuristic_property_score` (lines 422-433). -/
def heuristic_property_score (s : String) : Nat :=
  let sc := PROPERTY_KEYWORDS.foldl (fun sc kw => if substrOf kw s then sc + 3 else sc) 0
  let sc := if substrOf "だけ" s || substrOf "のみ" s || substrOf "ただ" s then sc + 2 else sc
  let sc := if ['÷', '/', '×', '^', '=', '√', 'π'].any (fun ch => s.data.contains ch)
    then sc + 2 else sc
  if s.length ≥ 60 then sc + 1 else sc

/-- Embedding of `_heuristic_other_score` (lines 436-447). -/
def heuristic_other_score (s : String) : Nat :=
  let sc := OTHER_KEYWORDS.foldl (fun sc kw => if substrOf kw s then sc + 3 else sc) 0
  let sc := if [':', '：'].any (fun ch => s.data.contains ch) then sc + 2 else sc
  let sc := if s.data.any isAsciiDigit then sc + 1 else sc
  if hasKatakanaRun4 s.data then sc + 1 else sc

/-- Exact value of `round(min(1.0, log10(m) / 5.0) * 9)` for a natural
number `m ≥ 1` (the `totalhits + 1` of the source).  For `m < 10^5`
this is the nearest integer to `9 * log10 m / 5`, computed exactly as
the least `k` with `m^18 < 10^(10*k+5)` (never a tie, because
`m^18 = 10^(10k+5)` would force an even number to equal an odd one);
at and above `10^5` the `min` clamp makes the value 9. -/
def fameRound (m : Nat) : Nat :=
  if 10 ^ 5 ≤ m then 9
  else (((List.range 10).filter (fun k => m ^ 18 < 10 ^ (10 * k + 5))).headD 9)

/-- Embedding of `_totalhits_to_fame_score` (lines 510-517). -/
def totalhits_to_fame_score (totalhits : Nat) : Int :=
  if totalhits = 0 then 1
  else
    let score : Int := 1 + (fameRound (totalhits + 1) : Int)
    max 1 (min 10 score)

/-- Result of one `_estimate_fame_score` call: the returned score, the
search-hit cache after the call (the Python function mutates the dict
in place), and whether the external search capability was invoked. -/
structure FameResult where
  score : Int
  cache : List (String × Nat)
  queried : Bool
deriving DecidableEq

/-- Embedding of `_estimate_fame_score` (lines 520-549).  The external
search query `_fetch_wikipedia_search_totalhits` is modelled by the
`fetch` oracle; a raised exception is `Except.error`, which the source
converts to zero hits. -/
def estimate_fame_score (term : Option String) (offline : Bool)
    (searchhits_cache : List (String × Nat)) (allow_fetch : Bool)
    (fetch : String → Except Unit Nat) : FameResult :=
  match term with
  | none => ⟨4, searchhits_cache, false⟩
  | some term0 =>
    let t := clean_text term0
    if t = "" then ⟨4, searchhits_cache, false⟩
    else if offline || !allow_fetch then
      if hasKatakanaRun4 t.data then ⟨6, searchhits_cache, false⟩
      else if listContainsSub "ISO".data t.data || listContainsSub "JIS".data t.data then
        ⟨6, searchhits_cache, false⟩
      else ⟨5, searchhits_cache, false⟩
    else
      match alistLookup searchhits_cache t with
      | some h => ⟨totalhits_to_fame_score h, searchhits_cache, false⟩
      | none =>
        let totalhits : Nat := match fetch t with | .ok h => h | .error _ => 0
        ⟨totalhits_to_fame_score totalhits, alistUpdate searchhits_cache t totalhits, true⟩

/-- The frequency-to-score mapping inside `_estimate_uniqueness_score`:
`clamp(11 - ceil(3 * log10(freq + 1)), 1, 10)`.  Since
`3 * log10(freq+1) = log10((freq+1)^3)`, its exact ceiling is
`Nat.clog 10 ((freq+1)^3)`. -/
def uniquenessOfFreq (freq : Nat) : Int :=
  max 1 (min 10 (11 - (Nat.clog 10 ((freq + 1) ^ 3) : Int)))

/-- Embedding of `_estimate_uniqueness_score` (lines 552-562). -/
def estimate_uniqueness_score (term : Option String) (term_freq : List (String × Nat)) : Int :=
  match term with
  | none => 4
  | some term0 =>
    let t := clean_text term0
    if t = "" then 4
    else uniquenessOfFreq ((alistLookup term_freq t).getD 0)

/-- Embedding of `_build_term_frequency_from_items` (lines 565-578):
count, over all cached lines, how often each cleaned scoring term
occurs. -/
def build_term_frequency_from_items (items : List (Int × List String)) : List (String × Nat) :=
  items.foldl (fun freq nv =>
    nv.2.foldl (fun freq s =>
      match extract_scoring_term s with
      | none => freq
      | some term0 =>
        if term0 = "" then freq
        else
          let t := clean_text term0
          if t = "" then freq
          else alistUpdate freq t ((alistLookup freq t).getD 0 + 1)) freq) []

/-- The cleaning-and-dedup preamble shared by both selection policies
(lines 598-607 and 702-711): clean every candidate, drop empties and
normalized duplicates, first occurrence wins. -/
def dedupClean (candidates : List String) : List String :=
  candidates.foldl (fun acc s =>
    let s2 := clean_text s
    if s2 = "" || acc.contains s2 then acc else acc ++ [s2]) []

/-- Cleaning of the configured pin substrings (lines 614-615 and
718-719): clean each, drop empties. -/
def pinsCleanOf (pinned_substrings : Option (List String)) : List String :=
  ((pinned_substrings.getD []).map clean_text).filter (fun p => !(p = ""))

/-- One outer iteration of the pin loop of `_select_by_importance`
(lines 618-626): scan the cleaned candidates in order, skip ones
already used, select the first candidate containing the pin. -/
def pinStep (cleaned : List String) (acc : List String) (pin : String) : List String :=
  match cleaned.find? (fun s => !acc.contains s && substrOf pin s) with
  | none => acc
  | some s => acc ++ [s]

/-- The full pin loop of `_select_by_importance` (lines 612-626). -/
def pinLoop (cleaned : List String) (pins : List String) : List String :=
  pins.foldl (pinStep cleaned) []

/-- The inner candidate scan of the legacy pin loop (lines 722-730):
for one pin, walk the cleaned candidates in order, skip used ones, and
select every candidate containing the pin — there is no unconditional
break after a match, so one pin may select several candidates; the
scan stops as soon as the selection reaches `limit`. -/
def pinInnerCapped (limit : Nat) (pin : String) :
    List String → List String → List String
  | acc, [] => acc
  | acc, s :: rest =>
    if acc.contains s then pinInnerCapped limit pin acc rest
    else if substrOf pin s then
      if limit ≤ acc.length + 1 then acc ++ [s]
      else pinInnerCapped limit pin (acc ++ [s]) rest
    else pinInnerCapped limit pin acc rest

/-- The pin loop of `_select_by_importance_legacy` (lines 716-732):
run the inner scan for each pin in declaration order, and break out of
the outer loop as soon as the selection reaches `limit`. -/
def pinLoopCapped (cleaned : List String) (limit : Nat) :
    List String → List String → List String
  | acc, [] => acc
  | acc, pin :: ps =>
    let acc2 := pinInnerCapped limit pin acc cleaned
    if limit ≤ acc2.length then acc2
    else pinLoopCapped cleaned limit acc2 ps

/-- One line of the `scored` list: the tuple
`(importance, fame, uniq, len(s), s)` built at lines 645-656. -/
structure ScoredLine where
  importance : Int
  fame : Int
  uniq : Int
  slen : Nat
  line : String
deriving DecidableEq

/-- Boolean descending-lexicographic comparison on the sort key
`(importance, fame, uniq, len)` — `scoredKeyGE a b` holds when `a` may
come before `b` in the descending sort of line 658. -/
def scoredKeyGE (a b : ScoredLine) : Bool :=
  b.importance < a.importance ||
    (a.importance = b.importance &&
      (b.fame < a.fame ||
        (a.fame = b.fame &&
          (b.uniq < a.uniq || (a.uniq = b.uniq && decide (b.slen ≤ a.slen))))))

/-- The sort relation of line 658 as a proposition. -/
def scoredGE (a b : ScoredLine) : Prop := scoredKeyGE a b = true

instance : DecidableRel scoredGE :=
  fun a b => inferInstanceAs (Decidable (scoredKeyGE a b = true))

/-- Python's stable `scored.sort(key=..., reverse=True)` of line 658:
a stable sort by the descending lexicographic key, of which
`List.insertionSort` with the reflexive descending relation is one
implementation. -/
def sortScored (l : List ScoredLine) : List ScoredLine := List.insertionSort scoredGE l

/-- Boolean comparison for `sorted(cleaned, key=lambda s: (heur(s),
len(s)), reverse=True)` of lines 638 and 746. -/
def searchKeyGE (heur : String → Nat) (s t : String) : Bool :=
  heur t < heur s || (heur s = heur t && decide (t.length ≤ s.length))

/-- The search-ranking relation as a proposition. -/
def searchGE (heur : String → Nat) (s t : String) : Prop := searchKeyGE heur s t = true

instance (heur : String → Nat) : DecidableRel (searchGE heur) :=
  fun s t => inferInstanceAs (Decidable (searchKeyGE heur s t = true))

/-- The heuristic pre-score selected at lines 632-635 and 741-744:
`_heuristic_property_score` when `kind == "property"`, otherwise
`_heuristic_other_score`. -/
def heurOfKind (kind : String) : String → Nat :=
  if kind = "property" then heuristic_property_score else heuristic_other_score

/-- The search-term set of lines 637-643 and 746-751: rank the
candidate pool by the heuristic key, take the top
`_MAX_SEARCH_QUERIES_PER_NUMBER`, collect their cleaned scoring
terms.  Set membership is modelled by list membership. -/
def searchTermsOf (pool : List String) (kind : String) : List String :=
  let ranked := List.insertionSort (searchGE (heurOfKind kind)) pool
  (ranked.take MAX_SEARCH_QUERIES_PER_NUMBER).foldl (fun acc s =>
    match extract_scoring_term s with
    | some term => if term = "" then acc else acc ++ [clean_text term]
    | none => acc) []

/-- The scoring loop of lines 645-656 and 753-764: score every pool
line, threading the mutable search-hit cache through the fame
estimates. -/
def scoreLines : (pool : List String) → (search_terms : List String) →
    (term_freq : List (String × Nat)) → (offline : Bool) →
    (cache : List (String × Nat)) → (fetch : String → Except Unit Nat) →
    List ScoredLine × List (String × Nat)
  | [], _, _, _, cache, _ => ([], cache)
  | s :: pool, search_terms, term_freq, offline, cache, fetch =>
    let term := extract_scoring_term s
    let allow : Bool :=
      match term with
      | none => false
      | some t0 => search_terms.contains (clean_text t0)
    let fr := estimate_fame_score term offline cache allow fetch
    let uniq := estimate_uniqueness_score term term_freq
    let importance := max 1 (min 100 (fr.score * uniq))
    let rest := scoreLines pool search_terms term_freq offline fr.cache fetch
    (⟨importance, fr.score, uniq, s.length, s⟩ :: rest.1, rest.2)

/-- The pinned selection of the threshold-inclusive policy, as a
function of the raw inputs. -/
def pinnedSelOf (candidates : List String) (pinned_substrings : Option (List String)) :
    List String :=
  pinLoop (dedupClean candidates) (pinsCleanOf pinned_substrings)

/-- The candidate pool left for score-based selection under the
threshold-inclusive policy (lines 628-630): the cleaned candidates
minus the pinned ones. -/
def poolOf (candidates : List String) (pinned_substrings : Option (List String)) :
    List String :=
  let cleaned := dedupClean candidates
  let ps := pinnedSelOf candidates pinned_substrings
  if !ps.isEmpty then cleaned.filter (fun s => !ps.contains s) else cleaned

/-- The pinned selection of the legacy policy, as a function of the raw
inputs. -/
def pinnedSelLegacyOf (candidates : List String) (pinned_substrings : Option (List String))
    (limit : Nat) : List String :=
  pinLoopCapped (dedupClean candidates) limit [] (pinsCleanOf pinned_substrings)

/-- The candidate pool left for score-based selection under the legacy
policy (lines 737-739). -/
def poolLegacyOf (candidates : List String) (pinned_substrings : Option (List String))
    (limit : Nat) : List String :=
  let cleaned := dedupClean candidates
  let ps := pinnedSelLegacyOf candidates pinned_substrings limit
  if !ps.isEmpty then cleaned.filter (fun s => !ps.contains s) else cleaned

/-- The sorted scored list over a given pool, together with the
search-hit cache after scoring. -/
def scoredSortedOn (pool : List String) (kind : String) (term_freq : List (String × Nat))
    (offline : Bool) (cache : List (String × Nat)) (fetch : String → Except Unit Nat) :
    List ScoredLine × List (String × Nat) :=
  let st := searchTermsOf pool kind
  let p := scoreLines pool st term_freq offline cache fetch
  (sortScored p.1, p.2)

/-- The `preferred` list of lines 660 and 768: the lines of the sorted
scored list whose importance meets the threshold, in sorted order. -/
def preferredOn (pool : List String) (kind : String) (term_freq : List (String × Nat))
    (offline : Bool) (cache : List (String × Nat)) (fetch : String → Except Unit Nat)
    (threshold : Int) : List String :=
  (((scoredSortedOn pool kind term_freq offline cache fetch).1).filter
    (fun t => threshold ≤ t.importance)).map (fun t => t.line)

/-- The fill loop of lines 671-677 and 778-784: walk the sorted scored
list, append unused lines, stop as soon as `limit` lines are
collected. -/
def fillLoop (limit : Nat) : List String → List ScoredLine → List String
  | out, [] => out
  | out, t :: rest =>
    if out.contains t.line then fillLoop limit out rest
    else if limit ≤ out.length + 1 then out ++ [t.line]
    else fillLoop limit (out ++ [t.line]) rest

/-- The deduplicating copy of `preferred` into `out` (lines 665-670 and
772-777). -/
def dedupKeep (l : List String) : List String :=
  l.foldl (fun acc s => if acc.contains s then acc else acc ++ [s]) []

/-- Embedding of `_select_by_importance` (wikipedia_ja.py, lines
581-678), the threshold-inclusive policy: `limit` is a floor, not a
ceiling.  Returns the selected lines and the search-hit cache after
the call. -/
def select_by_importance (candidates : List String) (term_freq : List (String × Nat))
    (searchhits_cache : List (String × Nat)) (offline : Bool) (limit : Nat)
    (threshold : Int) (kind : String) (pinned_substrings : Option (List String))
    (fetch : String → Except Unit Nat) : List String × List (String × Nat) :=
  if candidates.isEmpty then ([], searchhits_cache)
  else
    let cleaned := dedupClean candidates
    if cleaned.isEmpty then ([], searchhits_cache)
    else
      let pinned_selected := pinnedSelOf candidates pinned_substrings
      let pool := poolOf candidates pinned_substrings
      let sp := scoredSortedOn pool kind term_freq offline searchhits_cache fetch
      let scored := sp.1
      let preferred := (scored.filter (fun t => threshold ≤ t.importance)).map
        (fun t => t.line)
      if limit ≤ preferred.length then (pinned_selected ++ preferred, sp.2)
      else
        let out := fillLoop limit (dedupKeep preferred) scored
        (pinned_selected ++ out, sp.2)

/-- Embedding of `_select_by_importance_legacy` (wikipedia_ja.py, lines
681-786), the hard-cap policy: `limit` bounds the total output, pins
included. -/
def select_by_importance_legacy (candidates : List String) (term_freq : List (String × Nat))
    (searchhits_cache : List (String × Nat)) (offline : Bool) (limit : Nat)
    (threshold : Int) (kind : String) (pinned_substrings : Option (List String))
    (fetch : String → Except Unit Nat) : List String × List (String × Nat) :=
  if candidates.isEmpty then ([], searchhits_cache)
  else
    let cleaned := dedupClean candidates
    if cleaned.isEmpty then ([], searchhits_cache)
    else
      let pinned_selected := pinnedSelLegacyOf candidates pinned_substrings limit
      if limit ≤ pinned_selected.length then (pinned_selected.take limit, searchhits_cache)
      else
        let pool := poolLegacyOf candidates pinned_substrings limit
        let sp := scoredSortedOn pool kind term_freq offline searchhits_cache fetch
        let scored := sp.1
        let preferred := (scored.filter (fun t => threshold ≤ t.importance)).map
          (fun t => t.line)
        if limit ≤ preferred.length then
          (pinned_selected ++ preferred.take (limit - pinned_selected.length), sp.2)
        else
          let out := fillLoop limit (dedupKeep preferred) scored
          (pinned_selected ++ out.take (limit - pinned_selected.length), sp.2)

/-- Python exceptions relevant to the culture-format converters. -/
inductive PyErr where
  | valueError (msg : String)
  | keyError
deriving DecidableEq

/-- Python dict subscript `table[k]`: a missing key raises `KeyError`. -/
def lookupPy (table : List (Nat × String)) (k : Nat) : Except PyErr String :=
  match alistLookup table k with
  | some v => .ok v
  | none => .error .keyError

/-- The table `KANJI_DIGITS` (generate_numbers.py, lines 291-302). -/
def KANJI_DIGITS : List (Nat × String) :=
  [(0, "零"), (1, "一"), (2, "二"), (3, "三"), (4, "四"),
   (5, "五"), (6, "六"), (7, "七"), (8, "八"), (9, "九")]

/-- The table `DAIJI_DIGITS` (lines 304-315). -/
def DAIJI_DIGITS : List (Nat × String) :=
  [(0, "零"), (1, "壹"), (2, "貳"), (3, "參"), (4, "肆"),
   (5, "伍"), (6, "陸"), (7, "柒"), (8, "捌"), (9, "玖")]

/-- The table `EN_UNDER_20` (lines 318-339). -/
def EN_UNDER_20 : List (Nat × String) :=
  [(0, "zero"), (1, "one"), (2, "two"), (3, "three"), (4, "four"),
   (5, "five"), (6, "six"), (7, "seven"), (8, "eight"), (9, "nine"),
   (10, "ten"), (11, "eleven"), (12, "twelve"), (13, "thirteen"),
   (14, "fourteen"), (15, "fifteen"), (16, "sixteen"), (17, "seventeen"),
   (18, "eighteen"), (19, "nineteen")]

/-- The table `EN_TENS` (lines 341-350). -/
def EN_TENS : List (Nat × String) :=
  [(20, "twenty"), (30, "thirty"), (40, "forty"), (50, "fifty"),
   (60, "sixty"), (70, "seventy"), (80, "eighty"), (90, "ninety")]

/-- Embedding of `to_kanji_upto_999` (generate_numbers.py, lines
534-557).  The `n == 0` fast path precedes the range check, exactly as
in the source; digit-table subscripts can raise `KeyError`, the range
check raises `ValueError`. -/
def to_kanji_upto_999 (n : Int) (digits : List (Nat × String)) (ten hundred : String) :
    Except PyErr String :=
  if n = 0 then lookupPy digits 0
  else if ¬(0 ≤ n ∧ n ≤ 999) then .error (.valueError "Supported range is 0..999")
  else
    let h := n / 100
    let t := n / 10 % 10
    let u := n % 10
    let parts1 : Except PyErr (List String) :=
      if h = 0 then pure []
      else if h = 1 then pure [hundred]
      else do
        let d ← lookupPy digits h.toNat
        pure [d ++ hundred]
    let parts2 : Except PyErr (List String) :=
      if t = 0 then pure []
      else if t = 1 then pure [ten]
      else do
        let d ← lookupPy digits t.toNat
        pure [d ++ ten]
    let parts3 : Except PyErr (List String) :=
      if u = 0 then pure []
      else do
        let d ← lookupPy digits u.toNat
        pure [d]
    do
      let p1 ← parts1
      let p2 ← parts2
      let p3 ← parts3
      pure (String.join (p1 ++ p2 ++ p3))

/-- Embedding of `english_words_upto_999` (generate_numbers.py, lines
594-610).  Out-of-range input raises `ValueError`; the recursion is on
`n % 100 < n`. -/
def english_words_upto_999 (n : Int) : Except PyErr String :=
  if ¬(0 ≤ n ∧ n ≤ 999) then .error (.valueError "Supported range is 0..999")
  else if h20 : n < 20 then lookupPy EN_UNDER_20 n.toNat
  else if h100 : n < 100 then
    let tens := n / 10 * 10
    let unit := n % 10
    if unit = 0 then lookupPy EN_TENS tens.toNat
    else do
      let a ← lookupPy EN_TENS tens.toNat
      let b ← lookupPy EN_UNDER_20 unit.toNat
      pure (a ++ "-" ++ b)
  else
    let hundreds := n / 100
    let rest := n % 100
    if hr : rest = 0 then do
      let a ← lookupPy EN_UNDER_20 hundreds.toNat
      pure (a ++ " hundred")
    else do
      let a ← lookupPy EN_UNDER_20 hundreds.toNat
      let w ← english_words_upto_999 rest
      pure (a ++ " hundred " ++ w)
termination_by n.toNat
decreasing_by
  simp only [not_lt] at h20 h100
  omega

/-- Iterated leftmost non-overlapping substitution, the evaluation
scheme of `re.sub`: `step l` returns the replacement and the remainder
when a match starts at the head of `l`.  `fuel` bounds the number of
iterations; every concrete step below consumes at least one character,
so fuel equal to the input length is always sufficient. -/
def scanRep (step : List Char → Option (List Char × List Char)) :
    Nat → List Char → List Char
  | 0, l => l
  | _ + 1, [] => []
  | fuel + 1, c :: cs =>
    match step (c :: cs) with
    | some (rep, rest) => rep ++ scanRep step fuel rest
    | none => c :: scanRep step fuel cs

/-- Run one `re.sub` pass over a whole character list. -/
def runSub (step : List Char → Option (List Char × List Char)) (l : List Char) :
    List Char := scanRep step l.length l

/-- Split at the first occurrence of `needle`, returning the part
before and the part after it (the lazy `.*?needle` idiom). -/
def splitAtSub (needle : List Char) : List Char → Option (List Char × List Char)
  | [] => if needle.isEmpty then some ([], []) else none
  | c :: rest =>
    if listPrefixEq needle (c :: rest) then some ([], (c :: rest).drop needle.length)
    else
      match splitAtSub needle rest with
      | some (pre, post) => some (c :: pre, post)
      | none => none

/-- Match step for `re.sub(r"<!--.*?-->", " ", text, flags=re.DOTALL)`. -/
def stepComment (l : List Char) : Option (List Char × List Char) :=
  if listPrefixEq "<!--".data l then
    match splitAtSub "-->".data (l.drop 4) with
    | some (_, post) => some ([' '], post)
    | none => none
  else none

/-- Match step for `re.sub(r"<ref[^>/]*/>", " ", text)`. -/
def stepRefSelfClose (l : List Char) : Option (List Char × List Char) :=
  if listPrefixEq "<ref".data l then
    let rest := l.drop 4
    let run := rest.takeWhile (fun c => !(c = '>' || c = '/'))
    let after := rest.drop run.length
    if listPrefixEq "/>".data after then some ([' '], after.drop 2) else none
  else none

/-- Match step for `re.sub(r"<ref[^>]*>.*?</ref>", " ", text, DOTALL)`. -/
def stepRefPair (l : List Char) : Option (List Char × List Char) :=
  if listPrefixEq "<ref".data l then
    let rest := l.drop 4
    let run := rest.takeWhile (fun c => !(c = '>'))
    match rest.drop run.length with
    | '>' :: body =>
      match splitAtSub "</ref>".data body with
      | some (_, post) => some ([' '], post)
      | none => none
    | _ => none
  else none

/-- Case-insensitive prefix test (for regexes compiled with
`re.IGNORECASE`). -/
def listPrefixEqCI : List Char → List Char → Bool
  | [], _ => true
  | _ :: _, [] => false
  | a :: as, b :: bs => (a.toLower = b.toLower) && listPrefixEqCI as bs

/-- Character class `[^{}|]` of the inline-template capture group. -/
def tmplGroupChar (c : Char) : Bool := !(c = '\x7b' || c = '\x7d' || c = '|')

/-- The lazy capture `([^{}|]+?)` followed by `\s*\}\}`: after at least
one allowed character, at each position first try to finish with
optional whitespace and a double closing brace, else consume one more
allowed character. -/
def lazyGroupScan : Nat → List Char → List Char → Option (List Char × List Char)
  | 0, _, _ => none
  | fuel + 1, acc, l =>
    if !acc.isEmpty then
      let sp := l.takeWhile isSpaceChar
      let after := l.drop sp.length
      if listPrefixEq ['\x7d', '\x7d'] after then some (acc, after.drop 2)
      else
        match l with
        | c :: rest => if tmplGroupChar c then lazyGroupScan fuel (acc ++ [c]) rest else none
        | [] => none
    else
      match l with
      | c :: rest => if tmplGroupChar c then lazyGroupScan fuel (acc ++ [c]) rest else none
      | [] => none

/-- Backtracking of the greedy `\s*` that precedes the lazy group: try
the maximal number of skipped whitespace characters first, then give
characters back to the group one at a time. -/
def groupWithBacktrack (r5 : List Char) : Nat → Option (List Char × List Char)
  | 0 => lazyGroupScan r5.length [] r5
  | k + 1 =>
    match lazyGroupScan (r5.drop (k + 1)).length [] (r5.drop (k + 1)) with
    | some res => some res
    | none => groupWithBacktrack r5 k

/-- Match step for the inline templates of `_replace_common_templates`
(wikipedia_ja.py, lines 233-235):
`re.sub(r"\{\{\s*NAME\s*\|\s*([^{}|]+?)\s*\}\}", repl, IGNORECASE)`
with `mk` building the replacement from the capture group. -/
def stepNamedTemplate (name : List Char) (mk : List Char → List Char)
    (l : List Char) : Option (List Char × List Char) :=
  if listPrefixEq ['\x7b', '\x7b'] l then
    let r1 := l.drop 2
    let sp1 := r1.takeWhile isSpaceChar
    let r2 := r1.drop sp1.length
    if listPrefixEqCI name r2 then
      let r3 := r2.drop name.length
      let sp2 := r3.takeWhile isSpaceChar
      match r3.drop sp2.length with
      | '|' :: r5 =>
        match groupWithBacktrack r5 ((r5.takeWhile isSpaceChar).length) with
        | some (grp, rest) => some (mk grp, rest)
        | none => none
      | _ => none
    else none
  else none

/-- Match step for the symbol templates of lines 237-238:
`\{\{\s*π\s*\}\}` (exact) and `\{\{\s*pi\s*\}\}` (ignorecase), both
replaced by the pi character. -/
def stepSymbolTemplate (name : List Char) (ci : Bool) (l : List Char) :
    Option (List Char × List Char) :=
  if listPrefixEq ['\x7b', '\x7b'] l then
    let r1 := l.drop 2
    let sp1 := r1.takeWhile isSpaceChar
    let r2 := r1.drop sp1.length
    if (if ci then listPrefixEqCI name r2 else listPrefixEq name r2) then
      let r3 := r2.drop name.length
      let sp2 := r3.takeWhile isSpaceChar
      if listPrefixEq ['\x7d', '\x7d'] (r3.drop sp2.length) then
        some (['π'], (r3.drop sp2.length).drop 2)
      else none
    else none
  else none

/-- Match step for the generic template stripper
`re.sub(r"\{\{[^{}]*\}\}", " ", text)` of `_strip_templates`. -/
def stepTemplate (l : List Char) : Option (List Char × List Char) :=
  if listPrefixEq ['\x7b', '\x7b'] l then
    let body := (l.drop 2).takeWhile (fun c => !(c = '\x7b' || c = '\x7d'))
    let after := (l.drop 2).drop body.length
    if listPrefixEq ['\x7d', '\x7d'] after then some ([' '], after.drop 2) else none
  else none

/-- Embedding of `_strip_templates` (lines 220-228): up to ten
fixed-point passes of the generic template substitution. -/
def strip_templates_iter : Nat → List Char → List Char
  | 0, l => l
  | k + 1, l =>
    let cur := runSub stepTemplate l
    if cur = l then cur else strip_templates_iter k cur

/-- The `_strip_templates` entry point with its default of ten passes. -/
def strip_templates (l : List Char) : List Char := strip_templates_iter 10 l

/-- Parse the `https?://` scheme prefix (the optional `s` is greedy). -/
def schemeRest (l : List Char) : Option (List Char) :=
  if listPrefixEq "https://".data l then some (l.drop 8)
  else if listPrefixEq "http://".data l then some (l.drop 7)
  else none

/-- Match step for `re.sub(r"\[(https?://\S+)\s+([^\]]+)\]", r"\2")`:
a labeled external link is replaced by its label.  When the label part
would be empty because a `]` immediately follows the whitespace run,
the greedy `\s+` gives its last character back to the label group. -/
def stepExtLinkLabeled (l : List Char) : Option (List Char × List Char) :=
  match l with
  | '[' :: r1 =>
    match schemeRest r1 with
    | some r2 =>
      let run1 := r2.takeWhile (fun c => !isSpaceChar c)
      if run1.isEmpty then none
      else
        let r3 := r2.drop run1.length
        let sp := r3.takeWhile isSpaceChar
        if sp.isEmpty then none
        else
          let r4 := r3.drop sp.length
          let t := r4.takeWhile (fun c => !(c = ']'))
          match r4.drop t.length with
          | ']' :: r6 =>
            if t.isEmpty then
              match sp.reverse with
              | d :: _ :: _ => some ([d], r6)
              | _ => none
            else some (t, r6)
          | _ => none
    | none => none
  | _ => none

/-- Match step for `re.sub(r"\[(https?://\S+)\]", " ")`: a bare
external link is replaced by a space.  The greedy `\S+` backtracks to
the last `]` inside the non-whitespace run. -/
def stepExtLinkBare (l : List Char) : Option (List Char × List Char) :=
  match l with
  | '[' :: r1 =>
    match schemeRest r1 with
    | some r2 =>
      let run := r2.takeWhile (fun c => !isSpaceChar c)
      let after := r2.drop run.length
      match ((List.range run.length).filter
          (fun j => 1 ≤ j && run.getD j ' ' = ']')).getLast? with
      | some j => some ([' '], run.drop (j + 1) ++ after)
      | none => none
    | none => none
  | _ => none

/-- Match step for `re.sub(r"\[\[([^\]|]+)\|([^\]]+)\]\]", r"\2")`. -/
def stepIntLinkPiped (l : List Char) : Option (List Char × List Char) :=
  if listPrefixEq "[[".data l then
    let r1 := l.drop 2
    let g1 := r1.takeWhile (fun c => !(c = ']' || c = '|'))
    if g1.isEmpty then none
    else
      match r1.drop g1.length with
      | '|' :: r2 =>
        let g2 := r2.takeWhile (fun c => !(c = ']'))
        if g2.isEmpty then none
        else if listPrefixEq "]]".data (r2.drop g2.length) then
          some (g2, (r2.drop g2.length).drop 2)
        else none
      | _ => none
  else none

/-- Match step for `re.sub(r"\[\[([^\]]+)\]\]", r"\1")`. -/
def stepIntLinkPlain (l : List Char) : Option (List Char × List Char) :=
  if listPrefixEq "[[".data l then
    let r1 := l.drop 2
    let g := r1.takeWhile (fun c => !(c = ']'))
    if g.isEmpty then none
    else if listPrefixEq "]]".data (r1.drop g.length) then
      some (g, (r1.drop g.length).drop 2)
    else none
  else none

/-- Python `str.replace(needle, rep)`: leftmost non-overlapping
replacement of every occurrence. -/
def replaceAllSub (needle rep : List Char) : Nat → List Char → List Char
  | 0, l => l
  | _ + 1, [] => []
  | fuel + 1, c :: cs =>
    if !needle.isEmpty && listPrefixEq needle (c :: cs) then
      rep ++ replaceAllSub needle rep fuel ((c :: cs).drop needle.length)
    else c :: replaceAllSub needle rep fuel cs

/-- The multiline substitutions `re.sub(r"^=+\s*", "", MULTILINE)` and
`re.sub(r"^[\*#;:]+\s*", "", MULTILINE)`: at the start of the string
or right after a newline, a run of marker characters plus trailing
whitespace (which may span newlines) is deleted.  Whether the position
after the match is again a line start depends on the last consumed
character. -/
def stripLineStart (isMark : Char → Bool) : Nat → Bool → List Char → List Char
  | 0, _, l => l
  | _ + 1, _, [] => []
  | fuel + 1, atStart, c :: cs =>
    if atStart && isMark c then
      let marks := (c :: cs).takeWhile isMark
      let r1 := (c :: cs).drop marks.length
      let sp := r1.takeWhile isSpaceChar
      let atStart2 := match sp.reverse with
        | d :: _ => d = '\n'
        | [] => false
      stripLineStart isMark fuel atStart2 (r1.drop sp.length)
    else c :: stripLineStart isMark fuel (c = '\n') cs

/-- Match step for `re.sub(r"\s*=+$", "", MULTILINE)`: whitespace, a
nonempty run of equals signs, then end of string or a newline (the
newline is not consumed; the `$` is zero-width). -/
def stepTrailEq (l : List Char) : Option (List Char × List Char) :=
  let sp := l.takeWhile isSpaceChar
  let r1 := l.drop sp.length
  let eqs := r1.takeWhile (fun c => c = '=')
  if eqs.isEmpty then none
  else
    match r1.drop eqs.length with
    | [] => some ([], [])
    | '\n' :: r2 => some ([], '\n' :: r2)
    | _ => none

/-- Match step for `re.sub(r"<[^>]+>", " ", text)`. -/
def stepTag (l : List Char) : Option (List Char × List Char) :=
  match l with
  | '<' :: r1 =>
    let run := r1.takeWhile (fun c => !(c = '>'))
    if run.isEmpty then none
    else
      match r1.drop run.length with
      | '>' :: r2 => some ([' '], r2)
      | _ => none
  | _ => none

/-- The shared markup-stripping passes of `wikitext_to_plain_text` and
`wikitext_to_plain_text_keep_newlines` (lines 242-262 and 266-286),
which are textually identical in the source up to the final whitespace
normalization. -/
def wikitext_core (l : List Char) : List Char :=
  let t := runSub stepComment l
  let t := runSub stepRefSelfClose t
  let t := runSub stepRefPair t
  let t := runSub (stepNamedTemplate "sup".data (fun g => '^' :: g)) t
  let t := runSub (stepNamedTemplate "sub".data (fun g => '_' :: g)) t
  let t := runSub (stepNamedTemplate "overline".data (fun g => g)) t
  let t := runSub (stepSymbolTemplate ['π'] false) t
  let t := runSub (stepSymbolTemplate ['p', 'i'] true) t
  let t := strip_templates t
  let t := runSub stepExtLinkLabeled t
  let t := runSub stepExtLinkBare t
  let t := runSub stepIntLinkPiped t
  let t := runSub stepIntLinkPlain t
  let t := replaceAllSub (List.replicate 5 '\'') [] t.length t
  let t := replaceAllSub (List.replicate 3 '\'') [] t.length t
  let t := replaceAllSub (List.replicate 2 '\'') [] t.length t
  let t := stripLineStart (fun c => c = '=') t.length true t
  let t := runSub stepTrailEq t
  let t := stripLineStart (fun c => c = '*' || c = '#' || c = ';' || c = ':') t.length true t
  runSub stepTag t

/-- Embedding of `wikitext_to_plain_text` (lines 242-263). -/
def wikitext_to_plain_text (wikitext : String) : String :=
  clean_text ⟨wikitext_core wikitext.data⟩

/-- Single pass replacing `\r\n` and bare `\r` by `\n` (lines 99). -/
def replaceCRLF : List Char → List Char
  | '\r' :: '\n' :: rest => '\n' :: replaceCRLF rest
  | '\r' :: rest => '\n' :: replaceCRLF rest
  | c :: rest => c :: replaceCRLF rest
  | [] => []

/-- One pass of `re.sub(r"[\t ]+", " ", text)`. -/
def squeezeTabSpace (prev : Bool) : List Char → List Char
  | [] => []
  | c :: cs =>
    if c = '\t' || c = ' ' then
      if prev then squeezeTabSpace true cs else ' ' :: squeezeTabSpace true cs
    else c :: squeezeTabSpace false cs

/-- One pass of `re.sub(r"\n{3,}", "\n\n", text)`. -/
def collapseNewlines : List Char → List Char
  | '\n' :: '\n' :: '\n' :: rest => collapseNewlines ('\n' :: '\n' :: rest)
  | c :: rest => c :: collapseNewlines rest
  | [] => []
termination_by l => l.length
decreasing_by all_goals simp

/-- Python `text.split(sep)` for a single-character separator. -/
def splitOnChar (sep : Char) : List Char → List (List Char)
  | [] => [[]]
  | c :: cs =>
    let r := splitOnChar sep cs
    if c = sep then [] :: r
    else
      match r with
      | [] => [[c]]
      | h :: t => (c :: h) :: t

/-- Python `"\n".join(lines)`. -/
def joinLines : List (List Char) → List Char
  | [] => []
  | [l] => l
  | l :: rest => l ++ '\n' :: joinLines rest

/-- Embedding of `_clean_text_preserve_newlines` (lines 97-104). -/
def clean_text_preserve_newlines (s : String) : String :=
  let t1 := s.data.map (fun c => if c = '\u00A0' then ' ' else c)
  let t2 := replaceCRLF t1
  let t3 := squeezeTabSpace false t2
  let t4 := collapseNewlines t3
  let lines := (splitOnChar '\n' t4).map pyStrip
  ⟨joinLines (lines.filter (fun ln => !ln.isEmpty))⟩

/-- Embedding of `wikitext_to_plain_text_keep_newlines` (lines 266-287). -/
def wikitext_to_plain_text_keep_newlines (wikitext : String) : String :=
  clean_text_preserve_newlines ⟨wikitext_core wikitext.data⟩

/-- Test for the boilerplate pattern
`re.search(r"は\s*自然数(、また\s*整数において|また\s*整数において|または\s*整数において|である)", s)`
matching at the head of `l`. -/
def boilerplateAt (l : List Char) : Bool :=
  match l with
  | c :: rest =>
    c = 'は' &&
      (let r1 := rest.dropWhile isSpaceChar
       if listPrefixEq "自然数".data r1 then
         let r2 := r1.drop 3
         (listPrefixEq "、また".data r2 &&
           listPrefixEq "整数において".data ((r2.drop 3).dropWhile isSpaceChar)) ||
         (listPrefixEq "また".data r2 &&
           listPrefixEq "整数において".data ((r2.drop 2).dropWhile isSpaceChar)) ||
         (listPrefixEq "または".data r2 &&
           listPrefixEq "整数において".data ((r2.drop 3).dropWhile isSpaceChar)) ||
         listPrefixEq "である".data r2
       else false)
  | [] => false

/-- Whole-string search for the boilerplate pattern. -/
def hasBoilerplate : List Char → Bool
  | [] => false
  | c :: rest => boilerplateAt (c :: rest) || hasBoilerplate rest

/-- Boolean comparison for `sorted(..., key=lambda s: (score(s),
-len(s)), reverse=True)` (line 1312): descending score, ties broken by
ascending length. -/
def searchKeyGEShort (heur : String → Nat) (s t : String) : Bool :=
  heur t < heur s || (heur s = heur t && decide (s.length ≤ t.length))

/-- The short-preferred ranking relation as a proposition. -/
def searchGEShort (heur : String → Nat) (s t : String) : Prop :=
  searchKeyGEShort heur s t = true

instance (heur : String → Nat) : DecidableRel (searchGEShort heur) :=
  fun s t => inferInstanceAs (Decidable (searchKeyGEShort heur s t = true))

/-- The dedup-and-truncate output loop of
`extract_property_candidate_sentences_from_plain_text` (lines
1143-1152): clean each ranked sentence, skip empties and duplicates,
stop right after the output reaches `maxc` entries. -/
def takeDedupClean (maxc : Nat) : List String → List String → List String
  | acc, [] => acc
  | acc, s :: rest =>
    let s2 := clean_text s
    if s2 = "" || acc.contains s2 then takeDedupClean maxc acc rest
    else if maxc ≤ acc.length + 1 then acc ++ [s2]
    else takeDedupClean maxc (acc ++ [s2]) rest

/-- The dedup-and-truncate output loop of
`extract_other_candidate_items_from_plain_text` (lines 1313-1321),
which does not re-clean. -/
def takeDedup (maxc : Nat) : List String → List String → List String
  | acc, [] => acc
  | acc, s :: rest =>
    if acc.contains s then takeDedup maxc acc rest
    else if maxc ≤ acc.length + 1 then acc ++ [s]
    else takeDedup maxc (acc ++ [s]) rest

/-- Embedding of `extract_property_candidate_sentences_from_plain_text`
(wikipedia_ja.py, lines 1122-1152); the source default for
`max_candidates` is 12. -/
def extract_property_candidate_sentences_from_plain_text (text : String)
    (max_candidates : Nat) : List String :=
  let t := clean_text text
  if t = "" then []
  else
    let parts := (splitOnChar '。' t.data).map pyStrip
    let sentences := parts.foldl (fun acc p =>
      if p.isEmpty then acc
      else
        let s : List Char := p ++ ['。']
        if hasBoilerplate s then acc
        else if s.length < 18 then acc
        else if s.length > 280 then acc
        else acc ++ [(⟨s⟩ : String)]) []
    let ranked := List.insertionSort (searchGE heuristic_property_score) sentences
    takeDedupClean max_candidates [] ranked

/-- Embedding of `extract_other_candidate_items_from_plain_text`
(wikipedia_ja.py, lines 1283-1322); the source default for
`max_candidates` is 16. -/
def extract_other_candidate_items_from_plain_text (text : String)
    (max_candidates : Nat) : List String :=
  let t := clean_text_preserve_newlines text
  if t = "" then []
  else
    let candidates := (splitOnChar '\n' t.data).foldl (fun acc line =>
      if line.isEmpty then acc
      else
        let parts := ((splitOnChar '。' line).map pyStrip).filter (fun p => !p.isEmpty)
        if !parts.isEmpty then acc ++ parts.map (fun p => (⟨p ++ ['。']⟩ : String))
        else acc ++ [(⟨line⟩ : String)]) []
    let cleaned := candidates.foldl (fun acc s0 =>
      let s := clean_text s0
      if s = "" then acc
      else if hasBoilerplate s.data then acc
      else if s.length < 14 then acc
      else if s.length > 220 then acc
      else acc ++ [s]) []
    let ranked := List.insertionSort (searchGEShort heuristic_other_score) cleaned
    takeDedup max_candidates [] ranked

/-- A section descriptor as returned by `fetch_sections` (the
`WikipediaSection` dataclass, lines 18-21). -/
structure WikipediaSection where
  index : String
  line : String
deriving DecidableEq

/-- The network collaborators of the extraction pipeline, modelled as
oracles: fetching the section list and a section's wikitext (either
may raise after exhausted retries), and querying the search total-hit
count. -/
structure WikiEnv where
  fetchSections : String → Except Unit (List WikipediaSection)
  fetchSectionWikitext : String → String → Except Unit String
  fetchSearchTotalhits : String → Except Unit Nat

/-- The two section-matching passes shared by all `*_from_title`
extractors (lines 1160-1169 etc.): first the section whose title
equals or starts with the hint, then the section containing the hint
as a substring. -/
def findTargetSection (sections : List WikipediaSection) (hint : String) :
    Option WikipediaSection :=
  match sections.find? (fun s => s.line = hint || listPrefixEq hint.data s.line.data) with
  | some s => some s
  | none => sections.find? (fun s => substrOf hint s.line)

/-- Embedding of `extract_property_candidate_sentences_from_title`
(wikipedia_ja.py, lines 1155-1178).  A raised network error from
either fetch propagates as `Except.error`; an absent section or empty
wikitext yields an empty list.  The source default hint is `性質`. -/
def extract_property_candidate_sentences_from_title (env : WikiEnv)
    (title section_name_hint : String) : Except Unit (List String) := do
  let sections ← env.fetchSections title
  if sections.isEmpty then return []
  match findTargetSection sections section_name_hint with
  | none => return []
  | some target =>
    let wikitext ← env.fetchSectionWikitext title target.index
    if wikitext = "" then return []
    return extract_property_candidate_sentences_from_plain_text
      (wikitext_to_plain_text wikitext) 12

/-- Embedding of `extract_other_candidate_items_from_title`
(wikipedia_ja.py, lines 1325-1348).  The source default hint is
`その他`. -/
def extract_other_candidate_items_from_title (env : WikiEnv)
    (title section_name_hint : String) : Except Unit (List String) := do
  let sections ← env.fetchSections title
  if sections.isEmpty then return []
  match findTargetSection sections section_name_hint with
  | none => return []
  | some target =>
    let wikitext ← env.fetchSectionWikitext title target.index
    if wikitext = "" then return []
    return extract_other_candidate_items_from_plain_text
      (wikitext_to_plain_text_keep_newlines wikitext) 16

/-- The per-number `try/except` of the property cache builder
(wikipedia_ja.py, lines 854-857): a raised extraction error degrades
to an empty candidate list in the caller. -/
def fetch_property_candidates_step (env : WikiEnv) (title : String) : List String :=
  match extract_property_candidate_sentences_from_title env title "性質" with
  | .error _ => []
  | .ok c => c

/-- The per-number `try/except` of the other-items cache builder
(lines 985-988). -/
def fetch_other_candidates_step (env : WikiEnv) (title : String) : List String :=
  match extract_other_candidate_items_from_title env title "その他" with
  | .error _ => []
  | .ok c => c

/-- A persisted two-policy cache document: the current-policy map and
the legacy map (`properties`/`properties_legacy`, or
`others`/`others_legacy`), keyed by number. -/
structure NumberListsFile where
  main : List (Int × List String)
  legacy : List (Int × List String)
deriving DecidableEq

/-- One entry of the parsed pin configuration
(`pins_config[n] = {"property": [...], "other": [...]}`). -/
structure PinsEntry where
  property : Option (List String)
  other : Option (List String)
deriving DecidableEq

/-- One entry of the parsed threshold-override configuration. -/
structure ThresholdsEntry where
  property : Option Int
  other : Option Int
deriving DecidableEq

/-- The result of one `load_or_build_*_sets_for_numbers` call: the two
returned restricted maps, the cache file state after the call, the
search-hit cache file state when it was rewritten, and the numbers for
which a fetch was attempted. -/
structure LoadResult where
  cur : List (Int × List String)
  legacy : List (Int × List String)
  newFile : Option NumberListsFile
  newSearchFile : Option (List (String × Nat))
  fetched : List Int

/-- The cache-parsing loop of lines 805-827 (and 934-958): keep only
string entries that are non-blank after stripping, and only numbers
with a nonempty surviving list. -/
def parseCachedLists (items : List (Int × List String)) : List (Int × List String) :=
  items.foldl (fun acc nv =>
    let lines := nv.2.filter (fun s => !(pyStripStr s = ""))
    if lines.isEmpty then acc else alistUpdate acc nv.1 lines) []

/-- The returned restriction `{n: m[n] for n in numbers if n in m}`
(lines 915-916 and 1046-1047). -/
def restrictTo (m : List (Int × List String)) (numbers : List Int) :
    List (Int × List String) :=
  numbers.foldl (fun acc n =>
    match alistLookup m n with
    | some v => alistUpdate acc n v
    | none => acc) []

/-- Ordering of integers used for `sorted(to_fetch)`. -/
def intLE (a b : Int) : Prop := a ≤ b

instance : DecidableRel intLE := fun a b => Int.decLe a b

/-- Ordering of number-keyed entries used for `sorted(d.items())`. -/
def intPairLE (a b : Int × List String) : Prop := a.1 ≤ b.1

instance : DecidableRel intPairLE := fun a b => Int.decLe a.1 b.1

/-- Ordering of term-keyed entries used for `dict(sorted(cache.items()))`. -/
def strPairLE (a b : String × Nat) : Prop := a.1 ≤ b.1

instance : DecidableRel strPairLE := fun a b => inferInstanceAs (Decidable (a.1 ≤ b.1))

/-- The `to_fetch` computation shared by both cache builders (lines
829-837 and 960-967): nothing when offline, every requested number on
refresh, otherwise the requested numbers missing from either policy
map. -/
def toFetchOf (offline refresh : Bool) (numbers : List Int)
    (cached_all cached_legacy : List (Int × List String)) : List Int :=
  let requested := numbers.dedup
  if offline then []
  else if refresh then requested
  else requested.filter (fun n =>
    !(alistLookup cached_all n).isSome || !(alistLookup cached_legacy n).isSome)

/-- The fetch loop of lines 852-866 (or 983-997): for each number in
ascending order run the guarded extractor, record nonempty candidate
lists in fetch order, and bump the term-frequency table for each
extracted term. -/
def fetchLoop (step : String → List String) (sorted_to_fetch : List Int)
    (term_freq0 : List (String × Nat)) :
    List (Int × List String) × List (String × Nat) :=
  sorted_to_fetch.foldl (fun acc n =>
    let candidates := step (toString n)
    if candidates.isEmpty then acc
    else
      (acc.1 ++ [(n, candidates)],
       candidates.foldl (fun tf s =>
         match extract_scoring_term s with
         | none => tf
         | some term0 =>
           if term0 = "" then tf
           else
             let t := clean_text term0
             if t = "" then tf
             else alistUpdate tf t ((alistLookup tf t).getD 0 + 1)) acc.2)) ([], term_freq0)

/-- The selection loop of lines 868-896 (or 999-1027): for each fetched
number select under both policies with `limit=3`, threading the
search-hit cache through all calls, and store nonempty selections. -/
def selectLoop (fetched_candidates : List (Int × List String))
    (term_freq : List (String × Nat)) (offline : Bool)
    (pinOf : Int → Option (List String)) (thresholdOf : Int → Int) (kind : String)
    (fetch : String → Except Unit Nat)
    (cached_all0 cached_legacy0 : List (Int × List String))
    (searchCache0 : List (String × Nat)) :
    List (Int × List String) × List (Int × List String) × List (String × Nat) :=
  fetched_candidates.foldl (fun acc nc =>
    let pinned := pinOf nc.1
    let threshold := thresholdOf nc.1
    let r1 := select_by_importance nc.2 term_freq acc.2.2 offline 3 threshold kind
      pinned fetch
    let ca := if r1.1.isEmpty then acc.1 else alistUpdate acc.1 nc.1 r1.1
    let r2 := select_by_importance_legacy nc.2 term_freq r1.2 offline 3 threshold kind
      pinned fetch
    let cl := if r2.1.isEmpty then acc.2.1 else alistUpdate acc.2.1 nc.1 r2.1
    (ca, cl, r2.2)) (cached_all0, cached_legacy0, searchCache0)

/-- Embedding of
`load_or_build_wikipedia_property_sentence_sets_for_numbers`
(wikipedia_ja.py, lines 789-917).  The cache file, search-hit cache
file, pin configuration and threshold configuration are passed in
their parsed forms; `fetched` records the numbers for which the
extractor was invoked (the source fetches exactly `sorted(to_fetch)`
and writes the cache file only when `to_fetch` is nonempty). -/
def load_or_build_wikipedia_property_sentence_sets_for_numbers
    (file : Option NumberListsFile) (searchFile : List (String × Nat))
    (pinsConfig : List (Int × PinsEntry)) (thresholdConfig : List (Int × ThresholdsEntry))
    (refresh : Bool) (numbers : List Int) (offline : Bool) (env : WikiEnv) : LoadResult :=
  let cached_all0 := match file with
    | none => []
    | some f => parseCachedLists f.main
  let cached_legacy0 := match file with
    | none => []
    | some f => parseCachedLists f.legacy
  let to_fetch := toFetchOf offline refresh numbers cached_all0 cached_legacy0
  let sorted_to_fetch := List.insertionSort intLE to_fetch
  if sorted_to_fetch.isEmpty then
    ⟨restrictTo cached_all0 numbers, restrictTo cached_legacy0 numbers, file, none, []⟩
  else
    let term_freq0 := build_term_frequency_from_items cached_all0
    let fc := fetchLoop (fetch_property_candidates_step env) sorted_to_fetch term_freq0
    let sel := selectLoop fc.1 fc.2 offline
      (fun n => (alistLookup pinsConfig n).bind (fun e => e.property))
      (fun n => ((alistLookup thresholdConfig n).bind (fun e => e.property)).getD
        IMPORTANCE_THRESHOLD)
      "property" env.fetchSearchTotalhits cached_all0 cached_legacy0 searchFile
    let newSearch := if !offline then some (List.insertionSort strPairLE sel.2.2) else none
    let newFile := some (NumberListsFile.mk
      (List.insertionSort intPairLE sel.1) (List.insertionSort intPairLE sel.2.1))
    ⟨restrictTo sel.1 numbers, restrictTo sel.2.1 numbers, newFile, newSearch,
      sorted_to_fetch⟩

/-- Embedding of `load_or_build_wikipedia_other_item_sets_for_numbers`
(wikipedia_ja.py, lines 920-1048), identical to the property variant up
to the extractor, the pin/threshold section kind, and the cache-file
keys. -/
def load_or_build_wikipedia_other_item_sets_for_numbers
    (file : Option NumberListsFile) (searchFile : List (String × Nat))
    (pinsConfig : List (Int × PinsEntry)) (thresholdConfig : List (Int × ThresholdsEntry))
    (refresh : Bool) (numbers : List Int) (offline : Bool) (env : WikiEnv) : LoadResult :=
  let cached_all0 := match file with
    | none => []
    | some f => parseCachedLists f.main
  let cached_legacy0 := match file with
    | none => []
    | some f => parseCachedLists f.legacy
  let to_fetch := toFetchOf offline refresh numbers cached_all0 cached_legacy0
  let sorted_to_fetch := List.insertionSort intLE to_fetch
  if sorted_to_fetch.isEmpty then
    ⟨restrictTo cached_all0 numbers, restrictTo cached_legacy0 numbers, file, none, []⟩
  else
    let term_freq0 := build_term_frequency_from_items cached_all0
    let fc := fetchLoop (fetch_other_candidates_step env) sorted_to_fetch term_freq0
    let sel := selectLoop fc.1 fc.2 offline
      (fun n => (alistLookup pinsConfig n).bind (fun e => e.other))
      (fun n => ((alistLookup thresholdConfig n).bind (fun e => e.other)).getD
        IMPORTANCE_THRESHOLD)
      "other" env.fetchSearchTotalhits cached_all0 cached_legacy0 searchFile
    let newSearch := if !offline then some (List.insertionSort strPairLE sel.2.2) else none
    let newFile := some (NumberListsFile.mk
      (List.insertionSort intPairLE sel.1) (List.insertionSort intPairLE sel.2.1))
    ⟨restrictTo sel.1 numbers, restrictTo sel.2.1 numbers, newFile, newSearch,
      sorted_to_fetch⟩

/-- Adjacency invariant of `_clean_text` output: no two consecutive
whitespace characters. -/
def noTwoSpaces (a b : Char) : Prop := ¬(isSpaceChar a = true ∧ isSpaceChar b = true)

/-- Normal form of `_clean_text` outputs: every whitespace character is
a plain space, no two whitespace characters are adjacent, and the ends
are not whitespace. -/
def CleanNF (l : List Char) : Prop :=
  (∀ c ∈ l, isSpaceChar c = true → c = ' ') ∧
  List.Chain' noTwoSpaces l ∧
  (∀ c ∈ l.head?, isSpaceChar c = false) ∧
  (∀ c ∈ l.getLast?, isSpaceChar c = false)

/-- Wellformedness of a persisted per-number map as the cache parser
would accept it unchanged: unique keys, nonempty lists, and no entry
that is blank after stripping. -/
def WFCache (m : List (Int × List String)) : Prop :=
  (m.map Prod.fst).Nodup ∧ ∀ p ∈ m, p.2 ≠ [] ∧ ∀ s ∈ p.2, pyStripStr s ≠ ""

theorem squeezeWs_blank (l : List Char) :
    ∀ (p : Bool) (c : Char), c ∈ squeezeWs p l → isSpaceChar c = true → c = ' ' := by
  induction l with
  | nil => intro p c hc; simp [squeezeWs] at hc
  | cons a as ih =>
    intro p c hc hsp
    by_cases ha : isSpaceChar a = true
    · rcases p with _ | _
      · simp only [squeezeWs, ha, if_true] at hc
        rcases List.mem_cons.mp hc with h | h
        · exact h
        · exact ih true c h hsp
      · simp only [squeezeWs, ha, if_true] at hc
        exact ih true c hc hsp
    · simp only [squeezeWs, ha, if_false, Bool.false_eq_true] at hc
      rcases List.mem_cons.mp hc with h | h
      · subst h; simp [ha] at hsp
      · exact ih false c h hsp

theorem squeezeWs_head_true (l : List Char) :
    ∀ c ∈ (squeezeWs true l).head?, isSpaceChar c = false := by
  induction l with
  | nil => intro c hc; simp [squeezeWs] at hc
  | cons a as ih =>
    intro c hc
    by_cases ha : isSpaceChar a = true
    · simp only [squeezeWs, ha, if_true] at hc
      exact ih c hc
    · simp only [squeezeWs, ha, if_false, Bool.false_eq_true] at hc
      simp only [List.head?_cons, Option.mem_def, Option.some.injEq] at hc
      subst hc
      simpa using ha

theorem squeezeWs_chain (l : List Char) : ∀ p, List.Chain' noTwoSpaces (squeezeWs p l) := by
  induction l with
  | nil => intro p; simp [squeezeWs]
  | cons a as ih =>
    intro p
    by_cases ha : isSpaceChar a = true
    · rcases p with _ | _
      · simp only [squeezeWs, ha, if_true]
        refine List.chain'_cons'.mpr ⟨?_, ih true⟩
        intro b hb
        have := squeezeWs_head_true as b hb
        exact fun h => by simp [this] at h
      · simp only [squeezeWs, ha, if_true]
        exact ih true
    · simp only [squeezeWs, ha, if_false, Bool.false_eq_true]
      refine List.chain'_cons'.mpr ⟨?_, ih false⟩
      intro b _
      exact fun h => by simp [ha] at h

theorem squeezeWs_eq_self (l : List Char)
    (hb : ∀ c ∈ l, isSpaceChar c = true → c = ' ')
    (hc : List.Chain' noTwoSpaces l) :
    squeezeWs false l = l ∧
      ((∀ c ∈ l.head?, isSpaceChar c = false) → squeezeWs true l = l) := by
  induction l with
  | nil => exact ⟨rfl, fun _ => rfl⟩
  | cons a as ih =>
    have hbas : ∀ c ∈ as, isSpaceChar c = true → c = ' ' :=
      fun c hc' => hb c (List.mem_cons_of_mem a hc')
    have hcas : List.Chain' noTwoSpaces as := hc.tail
    have IH := ih hbas hcas
    by_cases ha : isSpaceChar a = true
    · have ha' : a = ' ' := hb a (List.mem_cons_self a as) ha
      have hhead : ∀ c ∈ as.head?, isSpaceChar c = false := by
        intro c hh
        have hr := (List.chain'_cons'.mp hc).1 c hh
        by_contra hcon
        exact hr ⟨ha, by simpa using hcon⟩
      constructor
      · simp only [squeezeWs, ha, if_true, if_false, Bool.false_eq_true]
        rw [IH.2 hhead, ha']
      · intro hhd
        have := hhd a (by simp)
        rw [ha] at this
        simp at this
    · constructor
      · simp only [squeezeWs, ha, if_false, Bool.false_eq_true]
        rw [IH.1]
      · intro _
        simp only [squeezeWs, ha, if_false, Bool.false_eq_true]
        rw [IH.1]

theorem dropWhile_eq_self_of_head (p : Char → Bool) (l : List Char)
    (h : ∀ c ∈ l.head?, p c = false) : l.dropWhile p = l := by
  cases l with
  | nil => rfl
  | cons c cs =>
    have := h c (by simp)
    simp [List.dropWhile_cons, this]

theorem head_dropWhile_false (p : Char → Bool) (l : List Char) :
    ∀ c ∈ (l.dropWhile p).head?, p c = false := by
  induction l with
  | nil => intro c hc; simp at hc
  | cons a as ih =>
    intro c hc
    by_cases ha : p a = true
    · rw [List.dropWhile_cons, if_pos ha] at hc
      exact ih c hc
    · rw [List.dropWhile_cons, if_neg ha] at hc
      simp only [List.head?_cons, Option.mem_def, Option.some.injEq] at hc
      subst hc
      simpa using ha

theorem pyStrip_eq_self (l : List Char)
    (h1 : ∀ c ∈ l.head?, isSpaceChar c = false)
    (h2 : ∀ c ∈ l.getLast?, isSpaceChar c = false) : pyStrip l = l := by
  unfold pyStrip
  rw [dropWhile_eq_self_of_head _ _ h1]
  rw [dropWhile_eq_self_of_head _ _ (by rw [List.head?_reverse]; exact h2)]
  exact List.reverse_reverse l

theorem noTwoSpaces_flip (a b : Char) : noTwoSpaces a b ↔ flip noTwoSpaces a b := by
  unfold noTwoSpaces flip
  tauto

theorem chain'_reverse_noTwoSpaces (l : List Char) (h : List.Chain' noTwoSpaces l) :
    List.Chain' noTwoSpaces l.reverse := by
  rw [List.chain'_reverse]
  refine h.imp ?_ 
  intro a b hab
  unfold flip noTwoSpaces at *
  tauto

theorem pyStrip_mem (l : List Char) : ∀ c ∈ pyStrip l, c ∈ l := by
  intro c hc
  unfold pyStrip at hc
  rw [List.mem_reverse] at hc
  have h1 := (List.dropWhile_suffix isSpaceChar
    (l := (l.dropWhile isSpaceChar).reverse)).subset hc
  rw [List.mem_reverse] at h1
  exact (List.dropWhile_suffix isSpaceChar).subset h1

theorem pyStrip_chain (l : List Char) (h : List.Chain' noTwoSpaces l) :
    List.Chain' noTwoSpaces (pyStrip l) := by
  unfold pyStrip
  apply chain'_reverse_noTwoSpaces
  apply List.Chain'.suffix _ (List.dropWhile_suffix isSpaceChar)
  apply chain'_reverse_noTwoSpaces
  exact List.Chain'.suffix h (List.dropWhile_suffix isSpaceChar)

theorem pyStrip_head (l : List Char) :
    ∀ c ∈ (pyStrip l).head?, isSpaceChar c = false := by
  intro c hc
  unfold pyStrip at hc
  set m := l.dropWhile isSpaceChar with hm
  set r := m.reverse.dropWhile isSpaceChar with hr
  rw [List.head?_reverse] at hc
  have hrne : r ≠ [] := by
    intro h0
    rw [h0] at hc
    simp at hc
  obtain ⟨pre, hpre⟩ := List.dropWhile_suffix (l := m.reverse) isSpaceChar
  have : m.reverse.getLast? = r.getLast? := by
    rw [← hpre]
    exact List.getLast?_append_of_ne_nil pre hrne
  rw [← this, List.getLast?_reverse] at hc
  exact head_dropWhile_false isSpaceChar l c hc

theorem pyStrip_last (l : List Char) :
    ∀ c ∈ (pyStrip l).getLast?, isSpaceChar c = false := by
  intro c hc
  unfold pyStrip at hc
  rw [List.getLast?_reverse] at hc
  exact head_dropWhile_false isSpaceChar _ c hc

theorem cleanNF_clean_text (s : String) : CleanNF (clean_text s).data := by
  unfold clean_text CleanNF
  set m := s.data.map (fun c => if c = '\u00A0' then ' ' else c) with hm
  refine ⟨?_, ?_, ?_, ?_⟩
  · intro c hc hsp
    exact squeezeWs_blank m false c (pyStrip_mem _ c hc) hsp
  · exact pyStrip_chain _ (squeezeWs_chain m false)
  · exact pyStrip_head _
  · exact pyStrip_last _

theorem clean_text_of_cleanNF (l : List Char) (h : CleanNF l) : clean_text ⟨l⟩ = ⟨l⟩ := by
  obtain ⟨hb, hc, hh, hl⟩ := h
  unfold clean_text
  have hmap : l.map (fun c => if c = '\u00A0' then ' ' else c) = l := by
    have : ∀ c ∈ l, (if c = '\u00A0' then ' ' else c) = id c := by
      intro c hcmem
      by_cases hnb : c = '\u00A0'
      · have hsp : isSpaceChar c = true := by rw [hnb]; decide
        have := hb c hcmem hsp
        rw [hnb] at this
        simp at this
      · simp [hnb]
    rw [List.map_congr_left this, List.map_id]
  simp only [String.data]
  rw [hmap, (squeezeWs_eq_self l hb hc).1, pyStrip_eq_self l hh hl]

theorem clean_text_idem (s : String) : clean_text (clean_text s) = clean_text s := by
  have h := cleanNF_clean_text s
  have h2 : clean_text ⟨(clean_text s).data⟩ = ⟨(clean_text s).data⟩ :=
    clean_text_of_cleanNF _ h
  exact h2

theorem pyStripStr_clean_text (s : String) : pyStripStr (clean_text s) = clean_text s := by
  have h := cleanNF_clean_text s
  unfold pyStripStr
  rw [pyStrip_eq_self _ h.2.2.1 h.2.2.2]

theorem dedupClean_aux (cs : List String) :
    ∀ acc : List String, acc.Nodup →
      (List.foldl (fun acc s =>
        let s2 := clean_text s
        if s2 = "" || acc.contains s2 then acc else acc ++ [s2]) acc cs).Nodup ∧
      (∀ x ∈ List.foldl (fun acc s =>
        let s2 := clean_text s
        if s2 = "" || acc.contains s2 then acc else acc ++ [s2]) acc cs,
        x ∈ acc ∨ (∃ s, x = clean_text s ∧ x ≠ "")) := by
  induction cs with
  | nil => intro acc hnd; exact ⟨hnd, fun x hx => Or.inl hx⟩
  | cons c cs ih =>
    intro acc hnd
    rw [List.foldl_cons]
    by_cases hcond : (clean_text c = "" || acc.contains (clean_text c)) = true
    · simp only [hcond, if_true]
      exact ih acc hnd
    · simp only [hcond, if_false, Bool.false_eq_true]
      have hne : clean_text c ≠ "" := by
        intro h0
        simp [h0] at hcond
      have hnm : clean_text c ∉ acc := by
        intro hmem
        simp [hmem] at hcond
      have hnd2 : (acc ++ [clean_text c]).Nodup := by
        simp [List.nodup_append, hnd, hnm]
      obtain ⟨h1, h2⟩ := ih (acc ++ [clean_text c]) hnd2
      refine ⟨h1, ?_⟩
      intro x hx
      rcases h2 x hx with hmem | hclean
      · rcases List.mem_append.mp hmem with h | h
        · exact Or.inl h
        · simp only [List.mem_singleton] at h
          exact Or.inr ⟨c, h, h ▸ hne⟩
      · exact Or.inr hclean

theorem dedupClean_nodup (candidates : List String) : (dedupClean candidates).Nodup :=
  (dedupClean_aux candidates [] List.nodup_nil).1

theorem dedupClean_mem (candidates : List String) :
    ∀ x ∈ dedupClean candidates, ∃ s, x = clean_text s ∧ x ≠ "" := by
  intro x hx
  rcases (dedupClean_aux candidates [] List.nodup_nil).2 x hx with h | h
  · simp at h
  · exact h

theorem dedupClean_fixed (candidates : List String) :
    ∀ x ∈ dedupClean candidates,
      clean_text x = x ∧ pyStripStr x = x ∧ x ≠ "" ∧ CleanNF x.data := by
  intro x hx
  obtain ⟨s, hxe, hne⟩ := dedupClean_mem candidates x hx
  subst hxe
  exact ⟨clean_text_idem s, pyStripStr_clean_text s, hne, cleanNF_clean_text s⟩

theorem pinStep_cases (cleaned acc : List String) (pin : String) :
    pinStep cleaned acc pin = acc ∨
      ∃ s, s ∈ cleaned ∧ s ∉ acc ∧ substrOf pin s = true ∧
        pinStep cleaned acc pin = acc ++ [s] := by
  unfold pinStep
  cases hf : cleaned.find? (fun s => !acc.contains s && substrOf pin s) with
  | none => exact Or.inl rfl
  | some s =>
    right
    have hp := List.find?_some hf
    have hm := List.mem_of_find?_eq_some hf
    rw [Bool.and_eq_true] at hp
    refine ⟨s, hm, ?_, hp.2, rfl⟩
    have := hp.1
    simp only [Bool.not_eq_true'] at this
    simp_all

theorem pinFold_facts (cleaned : List String) (pins : List String) :
    ∀ acc : List String, acc.Nodup →
      (List.foldl (pinStep cleaned) acc pins).Nodup ∧
      (∀ x ∈ List.foldl (pinStep cleaned) acc pins,
        x ∈ acc ∨ (x ∈ cleaned ∧ ∃ p ∈ pins, substrOf p x = true)) ∧
      (List.foldl (pinStep cleaned) acc pins).length ≤ acc.length + pins.length ∧
      (∃ ext, List.foldl (pinStep cleaned) acc pins = acc ++ ext) := by
  induction pins with
  | nil =>
    intro acc hnd
    exact ⟨hnd, fun x hx => Or.inl hx, by simp, [], by simp⟩
  | cons p ps ih =>
    intro acc hnd
    rw [List.foldl_cons]
    rcases pinStep_cases cleaned acc p with hcase | ⟨s, hsc, hsa, hsub, hcase⟩
    · rw [hcase]
      obtain ⟨h1, h2, h3, h4⟩ := ih acc hnd
      refine ⟨h1, ?_, by simp only [List.length_cons]; omega, h4⟩
      intro x hx
      rcases h2 x hx with h | ⟨hc, q, hq, hsq⟩
      · exact Or.inl h
      · exact Or.inr ⟨hc, q, List.mem_cons_of_mem p hq, hsq⟩
    · rw [hcase]
      have hnd2 : (acc ++ [s]).Nodup := by simp [List.nodup_append, hnd, hsa]
      obtain ⟨h1, h2, h3, h4⟩ := ih (acc ++ [s]) hnd2
      refine ⟨h1, ?_, by simp only [List.length_cons] at h3 ⊢; simp at h3; omega, ?_⟩
      · intro x hx
        rcases h2 x hx with h | ⟨hc, q, hq, hsq⟩
        · rcases List.mem_append.mp h with h' | h'
          · exact Or.inl h'
          · simp only [List.mem_singleton] at h'
            subst h'
            exact Or.inr ⟨hsc, p, List.mem_cons_self p ps, hsub⟩
        · exact Or.inr ⟨hc, q, List.mem_cons_of_mem p hq, hsq⟩
      · obtain ⟨ext, hext⟩ := h4
        exact ⟨s :: ext, by simpa using hext⟩

theorem pinLoop_nodup (cleaned pins : List String) : (pinLoop cleaned pins).Nodup :=
  (pinFold_facts cleaned pins [] List.nodup_nil).1

theorem pinLoop_mem (cleaned pins : List String) :
    ∀ x ∈ pinLoop cleaned pins, x ∈ cleaned ∧ ∃ p ∈ pins, substrOf p x = true := by
  intro x hx
  rcases (pinFold_facts cleaned pins [] List.nodup_nil).2.1 x hx with h | h
  · simp at h
  · exact h

theorem pinLoop_length (cleaned pins : List String) :
    (pinLoop cleaned pins).length ≤ pins.length := by
  have := (pinFold_facts cleaned pins [] List.nodup_nil).2.2.1
  simpa using this

theorem pinLoop_nil (pins : List String) : pinLoop [] pins = [] := by
  unfold pinLoop
  induction pins with
  | nil => rfl
  | cons p ps ih =>
    rw [List.foldl_cons]
    have : pinStep [] [] p = [] := by unfold pinStep; rfl
    rw [this]
    exact ih

theorem pinFold_ext (cleaned : List String) (pins : List String) :
    ∀ acc : List String, ∃ ext, List.foldl (pinStep cleaned) acc pins = acc ++ ext := by
  induction pins with
  | nil => intro acc; exact ⟨[], by simp⟩
  | cons p ps ih =>
    intro acc
    rw [List.foldl_cons]
    rcases pinStep_cases cleaned acc p with hcase | ⟨s, _, _, _, hcase⟩
    · rw [hcase]; exact ih acc
    · rw [hcase]
      obtain ⟨ext, hext⟩ := ih (acc ++ [s])
      exact ⟨s :: ext, by simpa using hext⟩

theorem scoreLines_map_line (pool : List String) :
    ∀ (st : List String) (tf : List (String × Nat)) (off : Bool)
      (cache : List (String × Nat)) (fetch : String → Except Unit Nat),
      ((scoreLines pool st tf off cache fetch).1).map (fun t => t.line) = pool := by
  induction pool with
  | nil => intro st tf off cache fetch; rfl
  | cons s ps ih =>
    intro st tf off cache fetch
    rw [scoreLines]
    simp only [List.map_cons]
    rw [ih]

theorem scoredSorted_lines_perm (pool : List String) (kind : String)
    (tf : List (String × Nat)) (off : Bool) (cache : List (String × Nat))
    (fetch : String → Except Unit Nat) :
    List.Perm (((scoredSortedOn pool kind tf off cache fetch).1).map (fun t => t.line))
      pool := by
  unfold scoredSortedOn sortScored
  have h1 := List.perm_insertionSort scoredGE
    (scoreLines pool (searchTermsOf pool kind) tf off cache fetch).1
  have h2 := h1.map (fun t => t.line)
  rw [scoreLines_map_line] at h2
  exact h2

theorem scoredSorted_lines_nodup (pool : List String) (kind : String)
    (tf : List (String × Nat)) (off : Bool) (cache : List (String × Nat))
    (fetch : String → Except Unit Nat) (h : pool.Nodup) :
    (((scoredSortedOn pool kind tf off cache fetch).1).map (fun t => t.line)).Nodup :=
  (scoredSorted_lines_perm pool kind tf off cache fetch).symm.nodup h

theorem mem_scoredSorted_line (pool : List String) (kind : String)
    (tf : List (String × Nat)) (off : Bool) (cache : List (String × Nat))
    (fetch : String → Except Unit Nat) (x : String) :
    x ∈ (((scoredSortedOn pool kind tf off cache fetch).1).map (fun t => t.line)) ↔
      x ∈ pool :=
  (scoredSorted_lines_perm pool kind tf off cache fetch).mem_iff

theorem scoredSorted_length (pool : List String) (kind : String)
    (tf : List (String × Nat)) (off : Bool) (cache : List (String × Nat))
    (fetch : String → Except Unit Nat) :
    ((scoredSortedOn pool kind tf off cache fetch).1).length = pool.length := by
  have := (scoredSorted_lines_perm pool kind tf off cache fetch).length_eq
  simpa using this

theorem preferred_sublist_lines (pool : List String) (kind : String)
    (tf : List (String × Nat)) (off : Bool) (cache : List (String × Nat))
    (fetch : String → Except Unit Nat) (θ : Int) :
    List.Sublist (preferredOn pool kind tf off cache fetch θ)
      (((scoredSortedOn pool kind tf off cache fetch).1).map (fun t => t.line)) := by
  unfold preferredOn
  exact List.Sublist.map _ (List.filter_sublist _)

theorem preferred_mem_pool (pool : List String) (kind : String)
    (tf : List (String × Nat)) (off : Bool) (cache : List (String × Nat))
    (fetch : String → Except Unit Nat) (θ : Int) :
    ∀ x ∈ preferredOn pool kind tf off cache fetch θ, x ∈ pool := by
  intro x hx
  have := (preferred_sublist_lines pool kind tf off cache fetch θ).subset hx
  exact (mem_scoredSorted_line pool kind tf off cache fetch x).mp this

theorem preferred_nodup (pool : List String) (kind : String)
    (tf : List (String × Nat)) (off : Bool) (cache : List (String × Nat))
    (fetch : String → Except Unit Nat) (θ : Int) (h : pool.Nodup) :
    (preferredOn pool kind tf off cache fetch θ).Nodup :=
  (scoredSorted_lines_nodup pool kind tf off cache fetch h).sublist
    (preferred_sublist_lines pool kind tf off cache fetch θ)

theorem fillLoop_mem (limit : Nat) :
    ∀ (rest : List ScoredLine) (out : List String), ∀ x ∈ fillLoop limit out rest,
      x ∈ out ∨ x ∈ rest.map (fun t => t.line) := by
  intro rest
  induction rest with
  | nil => intro out x hx; exact Or.inl hx
  | cons t ts ih =>
    intro out x hx
    rw [fillLoop] at hx
    by_cases hc : out.contains t.line = true
    · rw [if_pos hc] at hx
      rcases ih out x hx with h | h
      · exact Or.inl h
      · exact Or.inr (by simp [h])
    · rw [if_neg hc] at hx
      by_cases hcap : limit ≤ out.length + 1
      · rw [if_pos hcap] at hx
        rcases List.mem_append.mp hx with h | h
        · exact Or.inl h
        · simp only [List.mem_singleton] at h
          exact Or.inr (by simp [h])
      · rw [if_neg hcap] at hx
        rcases ih (out ++ [t.line]) x hx with h | h
        · rcases List.mem_append.mp h with h' | h'
          · exact Or.inl h'
          · simp only [List.mem_singleton] at h'
            exact Or.inr (by simp [h'])
        · exact Or.inr (by simp [h])

theorem fillLoop_nodup (limit : Nat) :
    ∀ (rest : List ScoredLine) (out : List String), out.Nodup →
      (fillLoop limit out rest).Nodup := by
  intro rest
  induction rest with
  | nil => intro out h; exact h
  | cons t ts ih =>
    intro out hnd
    rw [fillLoop]
    by_cases hc : out.contains t.line = true
    · rw [if_pos hc]; exact ih out hnd
    · rw [if_neg hc]
      have hnm : t.line ∉ out := by simpa using hc
      by_cases hcap : limit ≤ out.length + 1
      · rw [if_pos hcap]
        simp [List.nodup_append, hnd, hnm]
      · rw [if_neg hcap]
        exact ih (out ++ [t.line]) (by simp [List.nodup_append, hnd, hnm])

theorem fillLoop_length (limit : Nat) :
    ∀ (rest : List ScoredLine) (out : List String), out.length < limit →
      (rest.map (fun t => t.line)).Nodup →
      (fillLoop limit out rest).length =
        min limit (out.length + (rest.filter (fun t => !out.contains t.line)).length) := by
  intro rest
  induction rest with
  | nil =>
    intro out hlt _
    simp only [fillLoop, List.filter_nil, List.length_nil, Nat.add_zero]
    omega
  | cons t ts ih =>
    intro out hlt hnd
    rw [fillLoop]
    have hndts : (ts.map (fun t => t.line)).Nodup := by
      simp only [List.map_cons] at hnd
      exact hnd.of_cons
    by_cases hc : out.contains t.line = true
    · rw [if_pos hc]
      rw [List.filter_cons_of_neg (by rw [hc]; simp)]
      exact ih out hlt hndts
    · rw [if_neg hc]
      have hc' : out.contains t.line = false := by
        revert hc; cases out.contains t.line <;> simp
      rw [List.filter_cons_of_pos (by rw [hc']; simp)]
      by_cases hcap : limit ≤ out.length + 1
      · rw [if_pos hcap]
        simp only [List.length_append, List.length_cons, List.length_nil]
        omega
      · rw [if_neg hcap]
        have heq : ts.filter (fun u => !(out ++ [t.line]).contains u.line) =
            ts.filter (fun u => !out.contains u.line) := by
          apply List.filter_congr
          intro u hu
          have hne : u.line ≠ t.line := by
            simp only [List.map_cons] at hnd
            intro h0
            exact (List.nodup_cons.mp hnd).1 (h0 ▸ List.mem_map_of_mem (fun t => t.line) hu)
          simp [hne, hc']
        have := ih (out ++ [t.line]) (by simp; omega) hndts
        rw [heq] at this
        rw [this]
        simp only [List.length_append, List.length_cons, List.length_nil]
        omega

theorem dedupKeep_general (l : List String) :
    ∀ acc : List String, l.Nodup → (∀ x ∈ l, x ∉ acc) →
      List.foldl (fun acc s => if acc.contains s then acc else acc ++ [s]) acc l =
        acc ++ l := by
  induction l with
  | nil => intro acc _ _; simp
  | cons s ls ih =>
    intro acc hnd hdisj
    rw [List.foldl_cons]
    have hnm : s ∉ acc := hdisj s (List.mem_cons_self s ls)
    rw [if_neg (by simpa using hnm)]
    have : List.foldl (fun acc s => if acc.contains s then acc else acc ++ [s])
        (acc ++ [s]) ls = (acc ++ [s]) ++ ls := by
      apply ih (acc ++ [s]) (List.nodup_cons.mp hnd).2
      intro x hx
      simp only [List.mem_append, List.mem_singleton]
      rintro (h | h)
      · exact hdisj x (List.mem_cons_of_mem s hx) h
      · exact (List.nodup_cons.mp hnd).1 (h ▸ hx)
    rw [this]
    simp

theorem dedupKeep_eq_self (l : List String) (h : l.Nodup) : dedupKeep l = l := by
  unfold dedupKeep
  have := dedupKeep_general l [] h (by simp)
  simpa using this

theorem dedupKeep_mem_aux (l : List String) :
    ∀ acc : List String,
      ∀ x ∈ List.foldl (fun acc s => if acc.contains s then acc else acc ++ [s]) acc l,
        x ∈ acc ∨ x ∈ l := by
  induction l with
  | nil => intro acc x hx; exact Or.inl hx
  | cons s ls ih =>
    intro acc x hx
    rw [List.foldl_cons] at hx
    by_cases hc : acc.contains s = true
    · rw [if_pos hc] at hx
      rcases ih acc x hx with h | h
      · exact Or.inl h
      · exact Or.inr (List.mem_cons_of_mem s h)
    · rw [if_neg hc] at hx
      rcases ih (acc ++ [s]) x hx with h | h
      · rcases List.mem_append.mp h with h' | h'
        · exact Or.inl h'
        · simp only [List.mem_singleton] at h'
          exact Or.inr (h' ▸ List.mem_cons_self s ls)
      · exact Or.inr (List.mem_cons_of_mem s h)

theorem dedupKeep_mem (l : List String) : ∀ x ∈ dedupKeep l, x ∈ l := by
  intro x hx
  rcases dedupKeep_mem_aux l [] x hx with h | h
  · simp at h
  · exact h

theorem dedupClean_nil : dedupClean [] = [] := rfl

theorem pinnedSelOf_cleaned_nil (candidates : List String)
    (pins : Option (List String)) (h : dedupClean candidates = []) :
    pinnedSelOf candidates pins = [] := by
  unfold pinnedSelOf
  rw [h]
  exact pinLoop_nil _

theorem poolOf_cleaned_nil (candidates : List String) (pins : Option (List String))
    (h : dedupClean candidates = []) : poolOf candidates pins = [] := by
  unfold poolOf
  rw [h, pinnedSelOf_cleaned_nil candidates pins h]
  rfl

theorem pinLoopCapped_nil (limit : Nat) (pins : List String) :
    ∀ acc, pinLoopCapped [] limit acc pins = acc := by
  induction pins with
  | nil => intro acc; rfl
  | cons p ps ih =>
    intro acc
    rw [pinLoopCapped]
    show (if limit ≤ acc.length then acc else pinLoopCapped [] limit acc ps) = acc
    by_cases h : limit ≤ acc.length
    · rw [if_pos h]
    · rw [if_neg h]
      exact ih acc

theorem pinnedSelLegacyOf_cleaned_nil (candidates : List String)
    (pins : Option (List String)) (limit : Nat) (h : dedupClean candidates = []) :
    pinnedSelLegacyOf candidates pins limit = [] := by
  unfold pinnedSelLegacyOf
  rw [h]
  exact pinLoopCapped_nil limit _ []

theorem poolLegacyOf_cleaned_nil (candidates : List String) (pins : Option (List String))
    (limit : Nat) (h : dedupClean candidates = []) :
    poolLegacyOf candidates pins limit = [] := by
  unfold poolLegacyOf
  rw [h, pinnedSelLegacyOf_cleaned_nil candidates pins limit h]
  rfl

theorem scoredSortedOn_nil (kind : String) (tf : List (String × Nat)) (off : Bool)
    (cache : List (String × Nat)) (fetch : String → Except Unit Nat) :
    scoredSortedOn [] kind tf off cache fetch = ([], cache) := rfl

theorem preferredOn_nil (kind : String) (tf : List (String × Nat)) (off : Bool)
    (cache : List (String × Nat)) (fetch : String → Except Unit Nat) (θ : Int) :
    preferredOn [] kind tf off cache fetch θ = [] := rfl

theorem select_by_importance_spec (candidates : List String) (tf : List (String × Nat))
    (cache : List (String × Nat)) (off : Bool) (limit : Nat) (θ : Int) (kind : String)
    (pins : Option (List String)) (fetch : String → Except Unit Nat) :
    (select_by_importance candidates tf cache off limit θ kind pins fetch).1 =
      (if limit ≤ (preferredOn (poolOf candidates pins) kind tf off cache fetch θ).length
       then pinnedSelOf candidates pins ++
         preferredOn (poolOf candidates pins) kind tf off cache fetch θ
       else pinnedSelOf candidates pins ++
         fillLoop limit
           (dedupKeep (preferredOn (poolOf candidates pins) kind tf off cache fetch θ))
           ((scoredSortedOn (poolOf candidates pins) kind tf off cache fetch).1)) := by
  unfold select_by_importance
  by_cases hce : candidates.isEmpty = true
  · rw [if_pos hce]
    have hcand : candidates = [] := by simpa [List.isEmpty_iff] using hce
    subst hcand
    rw [pinnedSelOf_cleaned_nil [] pins rfl, poolOf_cleaned_nil [] pins rfl,
      preferredOn_nil, scoredSortedOn_nil]
    by_cases h : limit ≤ ([] : List String).length
    · rw [if_pos h]; rfl
    · rw [if_neg h]; rfl
  · rw [if_neg hce]
    by_cases hcl : (dedupClean candidates).isEmpty = true
    · rw [if_pos hcl]
      have hcln : dedupClean candidates = [] := by simpa [List.isEmpty_iff] using hcl
      rw [pinnedSelOf_cleaned_nil candidates pins hcln, poolOf_cleaned_nil candidates pins hcln,
        preferredOn_nil, scoredSortedOn_nil]
      by_cases h : limit ≤ ([] : List String).length
      · rw [if_pos h]; rfl
      · rw [if_neg h]; rfl
    · rw [if_neg hcl]
      simp only []
      unfold preferredOn
      by_cases h : limit ≤ (List.map (fun t => t.line)
          (List.filter (fun t => decide (θ ≤ t.importance))
            (scoredSortedOn (poolOf candidates pins) kind tf off cache fetch).1)).length
      · rw [if_pos h, if_pos h]
      · rw [if_neg h, if_neg h]

theorem select_by_importance_legacy_spec (candidates : List String)
    (tf : List (String × Nat)) (cache : List (String × Nat)) (off : Bool) (limit : Nat)
    (θ : Int) (kind : String) (pins : Option (List String))
    (fetch : String → Except Unit Nat) :
    (select_by_importance_legacy candidates tf cache off limit θ kind pins fetch).1 =
      (if limit ≤ (pinnedSelLegacyOf candidates pins limit).length
       then (pinnedSelLegacyOf candidates pins limit).take limit
       else if limit ≤ (preferredOn (poolLegacyOf candidates pins limit) kind tf off cache
           fetch θ).length
       then pinnedSelLegacyOf candidates pins limit ++
         (preferredOn (poolLegacyOf candidates pins limit) kind tf off cache fetch θ).take
           (limit - (pinnedSelLegacyOf candidates pins limit).length)
       else pinnedSelLegacyOf candidates pins limit ++
         (fillLoop limit
           (dedupKeep (preferredOn (poolLegacyOf candidates pins limit) kind tf off cache
             fetch θ))
           ((scoredSortedOn (poolLegacyOf candidates pins limit) kind tf off cache
             fetch).1)).take
           (limit - (pinnedSelLegacyOf candidates pins limit).length)) := by
  unfold select_by_importance_legacy
  by_cases hce : candidates.isEmpty = true
  · rw [if_pos hce]
    have hcand : candidates = [] := by simpa [List.isEmpty_iff] using hce
    subst hcand
    rw [pinnedSelLegacyOf_cleaned_nil [] pins limit rfl,
      poolLegacyOf_cleaned_nil [] pins limit rfl, preferredOn_nil, scoredSortedOn_nil]
    by_cases h : limit ≤ ([] : List String).length
    · rw [if_pos h]; simp
    · rw [if_neg h]
      by_cases h2 : limit ≤ ([] : List String).length
      · omega
      · rw [if_neg h2]
        show ([] : List String) = [] ++ List.take (limit - 0) (fillLoop limit (dedupKeep []) [])
        simp [fillLoop, dedupKeep]
  · rw [if_neg hce]
    by_cases hcl : (dedupClean candidates).isEmpty = true
    · rw [if_pos hcl]
      have hcln : dedupClean candidates = [] := by simpa [List.isEmpty_iff] using hcl
      rw [pinnedSelLegacyOf_cleaned_nil candidates pins limit hcln,
        poolLegacyOf_cleaned_nil candidates pins limit hcln, preferredOn_nil,
        scoredSortedOn_nil]
      by_cases h : limit ≤ ([] : List String).length
      · rw [if_pos h]; simp
      · rw [if_neg h]
        by_cases h2 : limit ≤ ([] : List String).length
        · omega
        · rw [if_neg h2]
          show ([] : List String) = [] ++ List.take (limit - 0) (fillLoop limit (dedupKeep []) [])
          simp [fillLoop, dedupKeep]
    · rw [if_neg hcl]
      simp only []
      unfold preferredOn
      by_cases h1 : limit ≤ (pinnedSelLegacyOf candidates pins limit).length
      · rw [if_pos h1, if_pos h1]
      · rw [if_neg h1, if_neg h1]
        by_cases h2 : limit ≤ (List.map (fun t => t.line)
            (List.filter (fun t => decide (θ ≤ t.importance))
              (scoredSortedOn (poolLegacyOf candidates pins limit) kind tf off cache
                fetch).1)).length
        · rw [if_pos h2, if_pos h2]
        · rw [if_neg h2, if_neg h2]

theorem pinnedSelOf_nodup (candidates : List String) (pins : Option (List String)) :
    (pinnedSelOf candidates pins).Nodup :=
  pinLoop_nodup _ _

theorem pinnedSelOf_mem (candidates : List String) (pins : Option (List String)) :
    ∀ x ∈ pinnedSelOf candidates pins,
      x ∈ dedupClean candidates ∧ ∃ p ∈ pinsCleanOf pins, substrOf p x = true :=
  pinLoop_mem _ _

theorem pinnedSelOf_length (candidates : List String) (pins : Option (List String)) :
    (pinnedSelOf candidates pins).length ≤ (pinsCleanOf pins).length :=
  pinLoop_length _ _

theorem pinInnerCapped_nodup (limit : Nat) (pin : String) (cleaned : List String) :
    ∀ acc : List String, acc.Nodup → (pinInnerCapped limit pin acc cleaned).Nodup := by
  induction cleaned with
  | nil => intro acc h; exact h
  | cons s rest ih =>
    intro acc hnd
    rw [pinInnerCapped]
    by_cases hc : acc.contains s = true
    · rw [if_pos hc]
      exact ih acc hnd
    · rw [if_neg hc]
      have hnm : s ∉ acc := by simpa using hc
      by_cases hp : substrOf pin s = true
      · rw [if_pos hp]
        by_cases hcap : limit ≤ acc.length + 1
        · rw [if_pos hcap]
          simp [List.nodup_append, hnd, hnm]
        · rw [if_neg hcap]
          exact ih (acc ++ [s]) (by simp [List.nodup_append, hnd, hnm])
      · rw [if_neg hp]
        exact ih acc hnd

theorem pinInnerCapped_mem (limit : Nat) (pin : String) (cleaned : List String) :
    ∀ acc : List String, ∀ x ∈ pinInnerCapped limit pin acc cleaned,
      x ∈ acc ∨ x ∈ cleaned := by
  induction cleaned with
  | nil => intro acc x hx; exact Or.inl hx
  | cons s rest ih =>
    intro acc x hx
    rw [pinInnerCapped] at hx
    by_cases hc : acc.contains s = true
    · rw [if_pos hc] at hx
      rcases ih acc x hx with h | h
      · exact Or.inl h
      · exact Or.inr (List.mem_cons_of_mem _ h)
    · rw [if_neg hc] at hx
      by_cases hp : substrOf pin s = true
      · rw [if_pos hp] at hx
        by_cases hcap : limit ≤ acc.length + 1
        · rw [if_pos hcap] at hx
          rcases List.mem_append.mp hx with h | h
          · exact Or.inl h
          · simp only [List.mem_singleton] at h
            exact Or.inr (h ▸ List.mem_cons_self s rest)
        · rw [if_neg hcap] at hx
          rcases ih (acc ++ [s]) x hx with h | h
          · rcases List.mem_append.mp h with h' | h'
            · exact Or.inl h'
            · simp only [List.mem_singleton] at h'
              exact Or.inr (h' ▸ List.mem_cons_self s rest)
          · exact Or.inr (List.mem_cons_of_mem _ h)
      · rw [if_neg hp] at hx
        rcases ih acc x hx with h | h
        · exact Or.inl h
        · exact Or.inr (List.mem_cons_of_mem _ h)

theorem pinLoopCapped_nodup (cleaned : List String) (limit : Nat) (pins : List String) :
    ∀ acc : List String, acc.Nodup → (pinLoopCapped cleaned limit acc pins).Nodup := by
  induction pins with
  | nil => intro acc h; exact h
  | cons p ps ih =>
    intro acc hnd
    rw [pinLoopCapped]
    show (if limit ≤ (pinInnerCapped limit p acc cleaned).length
      then pinInnerCapped limit p acc cleaned
      else pinLoopCapped cleaned limit (pinInnerCapped limit p acc cleaned) ps).Nodup
    by_cases hcap : limit ≤ (pinInnerCapped limit p acc cleaned).length
    · rw [if_pos hcap]
      exact pinInnerCapped_nodup limit p cleaned acc hnd
    · rw [if_neg hcap]
      exact ih _ (pinInnerCapped_nodup limit p cleaned acc hnd)

theorem pinLoopCapped_mem (cleaned : List String) (limit : Nat) (pins : List String) :
    ∀ acc : List String, ∀ x ∈ pinLoopCapped cleaned limit acc pins,
      x ∈ acc ∨ x ∈ cleaned := by
  induction pins with
  | nil => intro acc x hx; exact Or.inl hx
  | cons p ps ih =>
    intro acc x hx
    rw [pinLoopCapped] at hx
    have hx2 : x ∈ (if limit ≤ (pinInnerCapped limit p acc cleaned).length
        then pinInnerCapped limit p acc cleaned
        else pinLoopCapped cleaned limit (pinInnerCapped limit p acc cleaned) ps) := hx
    clear hx
    rename' hx2 => hx
    by_cases hcap : limit ≤ (pinInnerCapped limit p acc cleaned).length
    · rw [if_pos hcap] at hx
      exact pinInnerCapped_mem limit p cleaned acc x hx
    · rw [if_neg hcap] at hx
      rcases ih _ x hx with h | h
      · exact pinInnerCapped_mem limit p cleaned acc x h
      · exact Or.inr h

theorem pinnedSelLegacyOf_nodup (candidates : List String) (pins : Option (List String))
    (limit : Nat) : (pinnedSelLegacyOf candidates pins limit).Nodup :=
  pinLoopCapped_nodup _ _ _ [] List.nodup_nil

theorem pinnedSelLegacyOf_mem (candidates : List String) (pins : Option (List String))
    (limit : Nat) :
    ∀ x ∈ pinnedSelLegacyOf candidates pins limit, x ∈ dedupClean candidates := by
  intro x hx
  rcases pinLoopCapped_mem _ _ _ [] x hx with h | h
  · simp at h
  · exact h

theorem poolOf_nodup (candidates : List String) (pins : Option (List String)) :
    (poolOf candidates pins).Nodup := by
  unfold poolOf
  by_cases h : (pinnedSelOf candidates pins).isEmpty = true
  · simp only [h, Bool.not_true, if_false, Bool.false_eq_true]
    exact dedupClean_nodup candidates
  · simp only [h, Bool.not_false, if_true]
    exact (dedupClean_nodup candidates).filter _

theorem poolOf_subset (candidates : List String) (pins : Option (List String)) :
    ∀ x ∈ poolOf candidates pins, x ∈ dedupClean candidates := by
  unfold poolOf
  intro x hx
  by_cases h : (pinnedSelOf candidates pins).isEmpty = true
  · simp only [h, Bool.not_true, if_false, Bool.false_eq_true] at hx
    exact hx
  · simp only [h, Bool.not_false, if_true] at hx
    exact (List.mem_filter.mp hx).1

theorem poolOf_disjoint (candidates : List String) (pins : Option (List String)) :
    ∀ x ∈ poolOf candidates pins, x ∉ pinnedSelOf candidates pins := by
  unfold poolOf
  intro x hx
  by_cases h : (pinnedSelOf candidates pins).isEmpty = true
  · intro hmem
    rw [List.isEmpty_iff] at h
    rw [h] at hmem
    simp at hmem
  · simp only [h, Bool.not_false, if_true] at hx
    have := (List.mem_filter.mp hx).2
    simpa using this

theorem poolLegacyOf_nodup (candidates : List String) (pins : Option (List String))
    (limit : Nat) : (poolLegacyOf candidates pins limit).Nodup := by
  unfold poolLegacyOf
  by_cases h : (pinnedSelLegacyOf candidates pins limit).isEmpty = true
  · simp only [h, Bool.not_true, if_false, Bool.false_eq_true]
    exact dedupClean_nodup candidates
  · simp only [h, Bool.not_false, if_true]
    exact (dedupClean_nodup candidates).filter _

theorem poolLegacyOf_subset (candidates : List String) (pins : Option (List String))
    (limit : Nat) :
    ∀ x ∈ poolLegacyOf candidates pins limit, x ∈ dedupClean candidates := by
  unfold poolLegacyOf
  intro x hx
  by_cases h : (pinnedSelLegacyOf candidates pins limit).isEmpty = true
  · simp only [h, Bool.not_true, if_false, Bool.false_eq_true] at hx
    exact hx
  · simp only [h, Bool.not_false, if_true] at hx
    exact (List.mem_filter.mp hx).1

theorem poolLegacyOf_disjoint (candidates : List String) (pins : Option (List String))
    (limit : Nat) :
    ∀ x ∈ poolLegacyOf candidates pins limit,
      x ∉ pinnedSelLegacyOf candidates pins limit := by
  unfold poolLegacyOf
  intro x hx
  by_cases h : (pinnedSelLegacyOf candidates pins limit).isEmpty = true
  · intro hmem
    rw [List.isEmpty_iff] at h
    rw [h] at hmem
    simp at hmem
  · simp only [h, Bool.not_false, if_true] at hx
    have := (List.mem_filter.mp hx).2
    simpa using this

theorem preferred_length_le (pool : List String) (kind : String) (tf : List (String × Nat))
    (off : Bool) (cache : List (String × Nat)) (fetch : String → Except Unit Nat) (θ : Int) :
    (preferredOn pool kind tf off cache fetch θ).length ≤ pool.length := by
  have h1 := (preferred_sublist_lines pool kind tf off cache fetch θ).length_le
  rw [List.length_map, scoredSorted_length] at h1
  exact h1

theorem fill_out_length (pool : List String) (kind : String) (tf : List (String × Nat))
    (off : Bool) (cache : List (String × Nat)) (fetch : String → Except Unit Nat) (θ : Int)
    (limit : Nat) (h : (preferredOn pool kind tf off cache fetch θ).length < limit)
    (hpool : pool.Nodup) :
    (fillLoop limit (dedupKeep (preferredOn pool kind tf off cache fetch θ))
      ((scoredSortedOn pool kind tf off cache fetch).1)).length = min limit pool.length := by
  set sorted := (scoredSortedOn pool kind tf off cache fetch).1 with hsorted
  set pref := preferredOn pool kind tf off cache fetch θ with hpref
  have hnds : (sorted.map (fun t => t.line)).Nodup :=
    scoredSorted_lines_nodup pool kind tf off cache fetch hpool
  have hprefnd : pref.Nodup := preferred_nodup pool kind tf off cache fetch θ hpool
  rw [dedupKeep_eq_self pref hprefnd]
  rw [fillLoop_length limit sorted pref h hnds]
  have hfilter_eq : sorted.filter (fun t => pref.contains t.line) =
      sorted.filter (fun t => decide (θ ≤ t.importance)) := by
    apply List.filter_congr
    intro t ht
    by_cases himp : θ ≤ t.importance
    · have hmem : t.line ∈ pref := by
        rw [hpref]
        unfold preferredOn
        rw [← hsorted]
        exact List.mem_map_of_mem _ (List.mem_filter.mpr ⟨ht, by simpa using himp⟩)
      simp [hmem, himp]
    · have hnin : t.line ∉ pref := by
        intro hmem
        rw [hpref] at hmem
        unfold preferredOn at hmem
        rw [← hsorted] at hmem
        obtain ⟨u, hu, hline⟩ := List.mem_map.mp hmem
        have hus : u ∈ sorted := (List.mem_filter.mp hu).1
        have hud := (List.mem_filter.mp hu).2
        have hut : u = t := List.inj_on_of_nodup_map hnds hus ht hline
        rw [hut] at hud
        simp [himp] at hud
      simp [hnin, himp]
  have hlen1 : (sorted.filter (fun t => pref.contains t.line)).length = pref.length := by
    rw [hfilter_eq, hpref]
    unfold preferredOn
    rw [← hsorted, List.length_map]
  have hpart := List.length_eq_length_filter_add
    (l := sorted) (fun t => pref.contains t.line)
  have hple : pref.length ≤ sorted.length := by
    have := (preferred_sublist_lines pool kind tf off cache fetch θ).length_le
    rw [List.length_map] at this
    exact this
  have hslen : sorted.length = pool.length := scoredSorted_length pool kind tf off cache fetch
  omega

theorem select_result_parts (candidates : List String) (tf cache : List (String × Nat))
    (off : Bool) (limit : Nat) (θ : Int) (kind : String) (pins : Option (List String))
    (fetch : String → Except Unit Nat) :
    ∃ rest, (select_by_importance candidates tf cache off limit θ kind pins fetch).1 =
        pinnedSelOf candidates pins ++ rest ∧
      ∀ x ∈ rest, x ∈ poolOf candidates pins := by
  rw [select_by_importance_spec]
  by_cases h : limit ≤
      (preferredOn (poolOf candidates pins) kind tf off cache fetch θ).length
  · rw [if_pos h]
    exact ⟨_, rfl, preferred_mem_pool _ kind tf off cache fetch θ⟩
  · rw [if_neg h]
    refine ⟨_, rfl, ?_⟩
    intro x hx
    rcases fillLoop_mem limit _ _ x hx with h1 | h1
    · exact preferred_mem_pool _ kind tf off cache fetch θ x (dedupKeep_mem _ x h1)
    · exact (mem_scoredSorted_line _ kind tf off cache fetch x).mp h1

theorem select_legacy_result_parts (candidates : List String) (tf cache : List (String × Nat))
    (off : Bool) (limit : Nat) (θ : Int) (kind : String) (pins : Option (List String))
    (fetch : String → Except Unit Nat) :
    ∃ rest, (select_by_importance_legacy candidates tf cache off limit θ kind pins fetch).1 =
        (pinnedSelLegacyOf candidates pins limit).take limit ++ rest ∧
      ∀ x ∈ rest, x ∈ poolLegacyOf candidates pins limit := by
  rw [select_by_importance_legacy_spec]
  by_cases h1 : limit ≤ (pinnedSelLegacyOf candidates pins limit).length
  · rw [if_pos h1]
    exact ⟨[], (List.append_nil _).symm, by simp⟩
  · rw [if_neg h1]
    have htake : (pinnedSelLegacyOf candidates pins limit).take limit =
        pinnedSelLegacyOf candidates pins limit :=
      List.take_of_length_le (by omega)
    rw [htake]
    by_cases h2 : limit ≤ (preferredOn (poolLegacyOf candidates pins limit) kind tf off
        cache fetch θ).length
    · rw [if_pos h2]
      refine ⟨_, rfl, ?_⟩
      intro x hx
      exact preferred_mem_pool _ kind tf off cache fetch θ x (List.take_subset _ _ hx)
    · rw [if_neg h2]
      refine ⟨_, rfl, ?_⟩
      intro x hx
      have hx2 := List.take_subset _ _ hx
      rcases fillLoop_mem limit _ _ x hx2 with h | h
      · exact preferred_mem_pool _ kind tf off cache fetch θ x (dedupKeep_mem _ x h)
      · exact (mem_scoredSorted_line _ kind tf off cache fetch x).mp h

theorem select_result_nodup (candidates : List String) (tf cache : List (String × Nat))
    (off : Bool) (limit : Nat) (θ : Int) (kind : String) (pins : Option (List String))
    (fetch : String → Except Unit Nat) :
    ((select_by_importance candidates tf cache off limit θ kind pins fetch).1).Nodup := by
  rw [select_by_importance_spec]
  have hpoolnd := poolOf_nodup candidates pins
  have hprefnd := preferred_nodup (poolOf candidates pins) kind tf off cache fetch θ hpoolnd
  by_cases h : limit ≤
      (preferredOn (poolOf candidates pins) kind tf off cache fetch θ).length
  · rw [if_pos h]
    rw [List.nodup_append]
    refine ⟨pinnedSelOf_nodup candidates pins, hprefnd, ?_⟩
    intro a ha hb
    exact poolOf_disjoint candidates pins a
      (preferred_mem_pool _ kind tf off cache fetch θ a hb) ha
  · rw [if_neg h]
    rw [List.nodup_append]
    refine ⟨pinnedSelOf_nodup candidates pins, ?_, ?_⟩
    · exact fillLoop_nodup limit _ _ (by rw [dedupKeep_eq_self _ hprefnd]; exact hprefnd)
    · intro a ha hb
      have hp : a ∈ poolOf candidates pins := by
        rcases fillLoop_mem limit _ _ a hb with h1 | h1
        · exact preferred_mem_pool _ kind tf off cache fetch θ a (dedupKeep_mem _ a h1)
        · exact (mem_scoredSorted_line _ kind tf off cache fetch a).mp h1
      exact poolOf_disjoint candidates pins a hp ha

theorem select_legacy_result_nodup (candidates : List String)
    (tf cache : List (String × Nat)) (off : Bool) (limit : Nat) (θ : Int) (kind : String)
    (pins : Option (List String)) (fetch : String → Except Unit Nat) :
    ((select_by_importance_legacy candidates tf cache off limit θ kind pins fetch).1).Nodup := by
  rw [select_by_importance_legacy_spec]
  have hpsnd := pinnedSelLegacyOf_nodup candidates pins limit
  have hpoolnd := poolLegacyOf_nodup candidates pins limit
  have hprefnd := preferred_nodup (poolLegacyOf candidates pins limit) kind tf off cache
    fetch θ hpoolnd
  by_cases h1 : limit ≤ (pinnedSelLegacyOf candidates pins limit).length
  · rw [if_pos h1]
    exact hpsnd.sublist (List.take_sublist limit _)
  · rw [if_neg h1]
    by_cases h2 : limit ≤ (preferredOn (poolLegacyOf candidates pins limit) kind tf off
        cache fetch θ).length
    · rw [if_pos h2]
      rw [List.nodup_append]
      refine ⟨hpsnd, hprefnd.sublist (List.take_sublist _ _), ?_⟩
      intro a ha hb
      exact poolLegacyOf_disjoint candidates pins limit a
        (preferred_mem_pool _ kind tf off cache fetch θ a (List.take_subset _ _ hb)) ha
    · rw [if_neg h2]
      rw [List.nodup_append]
      have hfillnd : (fillLoop limit
          (dedupKeep (preferredOn (poolLegacyOf candidates pins limit) kind tf off cache
            fetch θ))
          ((scoredSortedOn (poolLegacyOf candidates pins limit) kind tf off cache
            fetch).1)).Nodup := by
        exact fillLoop_nodup limit _ _ (by rw [dedupKeep_eq_self _ hprefnd]; exact hprefnd)
      refine ⟨hpsnd, hfillnd.sublist (List.take_sublist _ _), ?_⟩
      intro a ha hb
      have hb2 := List.take_subset _ _ hb
      have hp : a ∈ poolLegacyOf candidates pins limit := by
        rcases fillLoop_mem limit _ _ a hb2 with h | h
        · exact preferred_mem_pool _ kind tf off cache fetch θ a (dedupKeep_mem _ a h)
        · exact (mem_scoredSorted_line _ kind tf off cache fetch a).mp h
      exact poolLegacyOf_disjoint candidates pins limit a hp ha

theorem select_result_subset (candidates : List String) (tf cache : List (String × Nat))
    (off : Bool) (limit : Nat) (θ : Int) (kind : String) (pins : Option (List String))
    (fetch : String → Except Unit Nat) :
    ∀ x ∈ (select_by_importance candidates tf cache off limit θ kind pins fetch).1,
      x ∈ dedupClean candidates := by
  obtain ⟨rest, heq, hrest⟩ :=
    select_result_parts candidates tf cache off limit θ kind pins fetch
  intro x hx
  rw [heq] at hx
  rcases List.mem_append.mp hx with h | h
  · exact (pinnedSelOf_mem candidates pins x h).1
  · exact poolOf_subset candidates pins x (hrest x h)

theorem select_legacy_result_subset (candidates : List String)
    (tf cache : List (String × Nat)) (off : Bool) (limit : Nat) (θ : Int) (kind : String)
    (pins : Option (List String)) (fetch : String → Except Unit Nat) :
    ∀ x ∈ (select_by_importance_legacy candidates tf cache off limit θ kind pins fetch).1,
      x ∈ dedupClean candidates := by
  obtain ⟨rest, heq, hrest⟩ :=
    select_legacy_result_parts candidates tf cache off limit θ kind pins fetch
  intro x hx
  rw [heq] at hx
  rcases List.mem_append.mp hx with h | h
  · exact pinnedSelLegacyOf_mem candidates pins limit x (List.take_subset _ _ h)
  · exact poolLegacyOf_subset candidates pins limit x (hrest x h)

theorem map_clean_text_of_subset_cleaned (candidates : List String) (res : List String)
    (hsub : ∀ x ∈ res, x ∈ dedupClean candidates) : res.map clean_text = res := by
  have : ∀ x ∈ res, clean_text x = id x := by
    intro x hx
    exact (dedupClean_fixed candidates x (hsub x hx)).1
  rw [List.map_congr_left this, List.map_id]

/-- C1: under the threshold-inclusive policy (`_select_by_importance`),
whenever at least `limit` scored candidates meet the importance
threshold, the result is exactly the pinned selections followed by all
of those candidates — its length is the pin count plus the count of
threshold-meeting candidates, so it may exceed `limit`; under the
legacy policy (`_select_by_importance_legacy`) the result length is
always at most `limit`. -/
theorem c1_threshold_floor_vs_legacy_cap (candidates : List String)
    (tf cache : List (String × Nat)) (off : Bool) (limit : Nat) (θ : Int) (kind : String)
    (pins : Option (List String)) (fetch : String → Except Unit Nat) :
    (limit ≤ (preferredOn (poolOf candidates pins) kind tf off cache fetch θ).length →
      (select_by_importance candidates tf cache off limit θ kind pins fetch).1 =
        pinnedSelOf candidates pins ++
          preferredOn (poolOf candidates pins) kind tf off cache fetch θ ∧
      (select_by_importance candidates tf cache off limit θ kind pins fetch).1.length =
        (pinnedSelOf candidates pins).length +
          (preferredOn (poolOf candidates pins) kind tf off cache fetch θ).length) ∧
    (select_by_importance_legacy candidates tf cache off limit θ kind pins
      fetch).1.length ≤ limit := by
  constructor
  · intro h
    have heq : (select_by_importance candidates tf cache off limit θ kind pins fetch).1 =
        pinnedSelOf candidates pins ++
          preferredOn (poolOf candidates pins) kind tf off cache fetch θ := by
      rw [select_by_importance_spec, if_pos h]
    exact ⟨heq, by rw [heq, List.length_append]⟩
  · rw [select_by_importance_legacy_spec]
    by_cases h1 : limit ≤ (pinnedSelLegacyOf candidates pins limit).length
    · rw [if_pos h1]
      rw [List.length_take]
      omega
    · rw [if_neg h1]
      by_cases h2 : limit ≤ (preferredOn (poolLegacyOf candidates pins limit) kind tf off
          cache fetch θ).length
      · rw [if_pos h2]
        rw [List.length_append, List.length_take]
        omega
      · rw [if_neg h2]
        rw [List.length_append, List.length_take]
        omega

/-- Witness for C1 at a concrete input: with two candidates of
importance 16, threshold 10 and limit 1, both candidates meet the
threshold, and the returned list has both of them — longer than the
limit. -/
theorem c1_threshold_floor_vs_legacy_cap_witness :
    1 ≤ (preferredOn (poolOf ["cand one alpha", "cand two beta"] none) "property" [] true
      [] (fun _ => .error ()) 10).length ∧
    (select_by_importance ["cand one alpha", "cand two beta"] [] [] true 1 10 "property"
      none (fun _ => .error ())).1 = ["cand one alpha", "cand two beta"] := by
  constructor
  · decide
  · have h := (c1_threshold_floor_vs_legacy_cap ["cand one alpha", "cand two beta"] [] []
      true 1 10 "property" none (fun _ => .error ())).1 (by decide)
    rw [h.1]
    decide

/-- C5: for every input candidate list — duplicates, empty strings and
whitespace variants included — neither selection policy ever returns
two entries that are equal after normalization by `_clean_text`. -/
theorem c5_selector_no_normalized_duplicates (candidates : List String)
    (tf cache : List (String × Nat)) (off : Bool) (limit : Nat) (θ : Int) (kind : String)
    (pins : Option (List String)) (fetch : String → Except Unit Nat) :
    (((select_by_importance candidates tf cache off limit θ kind pins fetch).1).map
      clean_text).Nodup ∧
    (((select_by_importance_legacy candidates tf cache off limit θ kind pins fetch).1).map
      clean_text).Nodup := by
  constructor
  · rw [map_clean_text_of_subset_cleaned candidates _
      (select_result_subset candidates tf cache off limit θ kind pins fetch)]
    exact select_result_nodup candidates tf cache off limit θ kind pins fetch
  · rw [map_clean_text_of_subset_cleaned candidates _
      (select_legacy_result_subset candidates tf cache off limit θ kind pins fetch)]
    exact select_legacy_result_nodup candidates tf cache off limit θ kind pins fetch

/-- C4 counterexample: the legacy pin loop has no unconditional break
after a match, so a single pin substring consumes every unused matching
candidate up to the cap: with the one pin `pin`, two matching
candidates, and limit 3, the legacy policy pins (and returns) both
candidates, while the threshold-inclusive policy pins only the first —
refuting the claim that under both policies every pinned substring
contributes at most one selected candidate. -/
theorem c4_legacy_pin_multiplicity_counterexample :
    pinsCleanOf (some ["pin"]) = ["pin"] ∧
    pinnedSelLegacyOf ["pin alpha", "pin beta"] (some ["pin"]) 3 =
      ["pin alpha", "pin beta"] ∧
    (select_by_importance_legacy ["pin alpha", "pin beta"] [] [] true 3 10 "property"
      (some ["pin"]) (fun _ => Except.error ())).1 = ["pin alpha", "pin beta"] ∧
    pinnedSelOf ["pin alpha", "pin beta"] (some ["pin"]) = ["pin alpha"] :=
  ⟨by decide, by decide, by decide, by decide⟩

/-- C4 (amended): under the threshold-inclusive policy every pinned
substring contributes at most one selected candidate (the first unused
match), so the pinned selection is no longer than the pin list; under
the legacy policy a pin keeps scanning and may consume several matching
candidates (stopping only at the cap), though each candidate is pinned
at most once.  Under both policies the pinned candidates come from the
cleaned pool and occupy a prefix of the result in scan order, ahead of
all score-selected entries. -/
theorem c4_pins_prefix_per_policy (candidates : List String)
    (tf cache : List (String × Nat)) (off : Bool) (limit : Nat) (θ : Int) (kind : String)
    (pins : Option (List String)) (fetch : String → Except Unit Nat) :
    (pinnedSelOf candidates pins).length ≤ (pinsCleanOf pins).length ∧
    (pinnedSelOf candidates pins).Nodup ∧
    (∀ s ∈ pinnedSelOf candidates pins,
      s ∈ dedupClean candidates ∧ ∃ p ∈ pinsCleanOf pins, substrOf p s = true) ∧
    (∃ rest, (select_by_importance candidates tf cache off limit θ kind pins fetch).1 =
        pinnedSelOf candidates pins ++ rest ∧
        ∀ x ∈ rest, x ∉ pinnedSelOf candidates pins) ∧
    (pinnedSelLegacyOf candidates pins limit).Nodup ∧
    (∀ s ∈ pinnedSelLegacyOf candidates pins limit, s ∈ dedupClean candidates) ∧
    (∃ rest,
      (select_by_importance_legacy candidates tf cache off limit θ kind pins fetch).1 =
        (pinnedSelLegacyOf candidates pins limit).take limit ++ rest ∧
        ∀ x ∈ rest, x ∉ pinnedSelLegacyOf candidates pins limit) := by
  refine ⟨pinnedSelOf_length candidates pins, pinnedSelOf_nodup candidates pins,
    pinnedSelOf_mem candidates pins, ?_, pinnedSelLegacyOf_nodup candidates pins limit,
    pinnedSelLegacyOf_mem candidates pins limit, ?_⟩
  · obtain ⟨rest, heq, hmem⟩ :=
      select_result_parts candidates tf cache off limit θ kind pins fetch
    exact ⟨rest, heq, fun x hx => poolOf_disjoint candidates pins x (hmem x hx)⟩
  · obtain ⟨rest, heq, hmem⟩ :=
      select_legacy_result_parts candidates tf cache off limit θ kind pins fetch
    exact ⟨rest, heq, fun x hx => poolLegacyOf_disjoint candidates pins limit x (hmem x hx)⟩

/-- Witness for the amended C4 at a concrete input: with pin substring
`two`, the threshold-inclusive pinned selection is the unique candidate
containing it, and both pinned selections are duplicate-free candidates
of the cleaned pool. -/
theorem c4_pins_prefix_per_policy_witness :
    pinnedSelOf ["cand one alpha", "cand two beta"] (some ["two"]) = ["cand two beta"] ∧
    (pinnedSelLegacyOf ["cand one alpha", "cand two beta"] (some ["two"]) 1).Nodup ∧
    ∀ s ∈ pinnedSelLegacyOf ["cand one alpha", "cand two beta"] (some ["two"]) 1,
      s ∈ dedupClean ["cand one alpha", "cand two beta"] :=
  ⟨by decide,
   (c4_pins_prefix_per_policy ["cand one alpha", "cand two beta"] [] [] true 1 10
      "property" (some ["two"]) (fun _ => Except.error ())).2.2.2.2.1,
   (c4_pins_prefix_per_policy ["cand one alpha", "cand two beta"] [] [] true 1 10
      "property" (some ["two"]) (fun _ => Except.error ())).2.2.2.2.2.1⟩

/-- C9: under the threshold-inclusive policy, pins never count toward
the limit — when fewer than `limit` candidates meet the threshold the
score-selected portion has length `min limit (pool size)` and the pins
are prepended in addition; under the legacy policy the total length is
capped by `limit` with pins counted, namely
`min limit (pin count + pool size)`. -/
theorem c9_pins_beyond_limit_vs_legacy_cap (candidates : List String)
    (tf cache : List (String × Nat)) (off : Bool) (limit : Nat) (θ : Int) (kind : String)
    (pins : Option (List String)) (fetch : String → Except Unit Nat) :
    ((preferredOn (poolOf candidates pins) kind tf off cache fetch θ).length < limit →
      (select_by_importance candidates tf cache off limit θ kind pins fetch).1.length =
        (pinnedSelOf candidates pins).length + min limit (poolOf candidates pins).length) ∧
    (select_by_importance_legacy candidates tf cache off limit θ kind pins
      fetch).1.length =
      min limit ((pinnedSelLegacyOf candidates pins limit).length +
        (poolLegacyOf candidates pins limit).length) := by
  constructor
  · intro h
    rw [select_by_importance_spec, if_neg (by omega)]
    rw [List.length_append,
      fill_out_length _ kind tf off cache fetch θ limit h (poolOf_nodup candidates pins)]
  · rw [select_by_importance_legacy_spec]
    by_cases h1 : limit ≤ (pinnedSelLegacyOf candidates pins limit).length
    · rw [if_pos h1, List.length_take]
      omega
    · rw [if_neg h1]
      by_cases h2 : limit ≤ (preferredOn (poolLegacyOf candidates pins limit) kind tf off
          cache fetch θ).length
      · rw [if_pos h2, List.length_append, List.length_take]
        have hple := preferred_length_le (poolLegacyOf candidates pins limit) kind tf off
          cache fetch θ
        omega
      · rw [if_neg h2, List.length_append, List.length_take]
        rw [fill_out_length _ kind tf off cache fetch θ limit (by omega)
          (poolLegacyOf_nodup candidates pins limit)]
        omega

/-- Witness for C9 at a concrete input: with threshold 20 no candidate
meets it, and the threshold-inclusive result length equals the pin
count plus `min limit (pool size)`. -/
theorem c9_pins_beyond_limit_vs_legacy_cap_witness :
    (preferredOn (poolOf ["cand one alpha", "cand two beta"] none) "property" [] true []
      (fun _ => .error ()) 20).length < 1 ∧
    (select_by_importance ["cand one alpha", "cand two beta"] [] [] true 1 20 "property"
      none (fun _ => .error ())).1.length =
      (pinnedSelOf ["cand one alpha", "cand two beta"] none).length +
        min 1 (poolOf ["cand one alpha", "cand two beta"] none).length := by
  refine ⟨by decide, ?_⟩
  exact (c9_pins_beyond_limit_vs_legacy_cap ["cand one alpha", "cand two beta"] [] [] true
    1 20 "property" none (fun _ => .error ())).1 (by decide)

theorem clog10_eq (x k : Nat) (hk : 1 ≤ k) (h1 : x ≤ 10 ^ k) (h2 : 10 ^ (k - 1) < x) :
    Nat.clog 10 x = k := by
  have hb : (1 : Nat) < 10 := by norm_num
  have hle : Nat.clog 10 x ≤ k := (Nat.le_pow_iff_clog_le hb).mp h1
  have hgt : ¬Nat.clog 10 x ≤ k - 1 := by
    intro hcon
    have := (Nat.le_pow_iff_clog_le hb).mpr hcon
    omega
  omega

theorem clog10_real_ceil (f : Nat) :
    ((Nat.clog 10 ((f + 1) ^ 3) : Int) : Int) =
      Int.ceil ((3 : ℝ) * Real.logb 10 ((f : ℝ) + 1)) := by
  have h1 : (3 : ℝ) * Real.logb 10 ((f : ℝ) + 1) =
      Real.logb 10 (((f + 1 : Nat) : ℝ) ^ (3 : ℕ)) := by
    rw [Real.logb_pow]
    push_cast
    ring
  rw [h1]
  have h2 : (((f + 1 : Nat) : ℝ) ^ (3 : ℕ)) = (((f + 1) ^ 3 : Nat) : ℝ) := by push_cast; ring
  rw [h2]
  rw [show (10 : ℝ) = ((10 : ℕ) : ℝ) by norm_num]
  rw [Real.ceil_logb_natCast (by positivity)]
  rw [Int.clog_natCast]

theorem uniquenessOfFreq_antitone (f g : Nat) (h : f ≤ g) :
    uniquenessOfFreq g ≤ uniquenessOfFreq f := by
  unfold uniquenessOfFreq
  have hm : Nat.clog 10 ((f + 1) ^ 3) ≤ Nat.clog 10 ((g + 1) ^ 3) :=
    Nat.clog_mono_right 10 (Nat.pow_le_pow_left (by omega) 3)
  omega

theorem uniquenessOfFreq_one : uniquenessOfFreq 1 = 10 := by
  unfold uniquenessOfFreq
  rw [clog10_eq ((1 + 1) ^ 3) 1 (by norm_num) (by norm_num) (by norm_num)]
  decide

theorem uniquenessOfFreq_999 : uniquenessOfFreq 999 = 2 := by
  unfold uniquenessOfFreq
  rw [clog10_eq ((999 + 1) ^ 3) 9 (by norm_num) (by norm_num) (by norm_num)]
  decide

theorem uniquenessOfFreq_1000 : uniquenessOfFreq 1000 = 1 := by
  unfold uniquenessOfFreq
  rw [clog10_eq ((1000 + 1) ^ 3) 10 (by norm_num) (by norm_num) (by norm_num)]
  decide

/-- C2 counterexample: for a term cached with frequency exactly 1000,
`_estimate_uniqueness_score` returns 1 (the claim says 2):
`ceil(3 * log10(1001)) = 10`, so the clamped score is
`max(1, 11 - 10) = 1`. -/
theorem c2_uniqueness_score_counterexample :
    estimate_uniqueness_score (some "alpha") [("alpha", 1000)] ≠ 2 := by
  have hshow : estimate_uniqueness_score (some "alpha") [("alpha", 1000)] =
      (if clean_text "alpha" = "" then (4 : Int)
       else uniquenessOfFreq ((alistLookup [("alpha", 1000)] (clean_text "alpha")).getD 0)) :=
    rfl
  have harg : (alistLookup [("alpha", 1000)] (clean_text "alpha")).getD 0 = 1000 := by
    decide
  rw [hshow, if_neg (by decide : ¬clean_text "alpha" = ""), harg, uniquenessOfFreq_1000]
  decide

/-- C2 (amended): for every term present in the term-frequency table
with frequency `f ≥ 1`, `_estimate_uniqueness_score` returns
`clamp(11 - ceil(3 * log10(f + 1)), 1, 10)` (the exact ceiling being
`Nat.clog 10 ((f+1)^3)`); the score is 10 at `f = 1`, is monotonically
non-increasing in `f`, is 2 at `f = 999`, and is 1 (not 2) at
`f = 1000`. -/
theorem c2_uniqueness_score_amended (term : String) (tf : List (String × Nat)) (f : Nat)
    (hne : clean_text term ≠ "")
    (hlk : alistLookup tf (clean_text term) = some f) (hf : 1 ≤ f) :
    estimate_uniqueness_score (some term) tf = uniquenessOfFreq f ∧
    uniquenessOfFreq f = max 1 (min 10 (11 - (Nat.clog 10 ((f + 1) ^ 3) : Int))) ∧
    (Nat.clog 10 ((f + 1) ^ 3) : Int) =
      Int.ceil ((3 : ℝ) * Real.logb 10 ((f : ℝ) + 1)) ∧
    (∀ g, f ≤ g → uniquenessOfFreq g ≤ uniquenessOfFreq f) ∧
    (f = 1 → uniquenessOfFreq f = 10) ∧
    (f = 999 → uniquenessOfFreq f = 2) ∧
    (f = 1000 → uniquenessOfFreq f = 1) := by
  refine ⟨?_, rfl, clog10_real_ceil f, fun g hg => uniquenessOfFreq_antitone f g hg,
    fun h => h ▸ uniquenessOfFreq_one, fun h => h ▸ uniquenessOfFreq_999,
    fun h => h ▸ uniquenessOfFreq_1000⟩
  have hshow : estimate_uniqueness_score (some term) tf =
      (if clean_text term = "" then (4 : Int)
       else uniquenessOfFreq ((alistLookup tf (clean_text term)).getD 0)) := rfl
  rw [hshow, if_neg hne, hlk]
  rfl

/-- Witness for C2 at a concrete input: a term cached with frequency 5
goes through the frequency-to-score mapping. -/
theorem c2_uniqueness_score_amended_witness :
    estimate_uniqueness_score (some "alpha") [("alpha", 5)] = uniquenessOfFreq 5 ∧
    1 ≤ 5 :=
  ⟨(c2_uniqueness_score_amended "alpha" [("alpha", 5)] 5 (by decide) (by decide)
    (by decide)).1, by decide⟩

theorem alistLookup_update_self {α β : Type} [DecidableEq α] (l : List (α × β)) (k : α)
    (v : β) : alistLookup (alistUpdate l k v) k = some v := by
  induction l with
  | nil => simp [alistUpdate, alistLookup]
  | cons kv rest ih =>
    by_cases h : kv.1 = k
    · simp [alistUpdate, alistLookup, h]
    · simp only [alistUpdate, alistLookup, h, if_neg, if_false]
      simpa [h] using ih

/-- C10: when the external search query for a cleaned term raises,
`_estimate_fame_score` stores 0 hits for the term in the search-hit
cache, returns fame score 1 (below the neutral 4 returned for
candidates with no term), and every later call for the same term hits
the cached 0 without invoking the search capability again. -/
theorem c10_fame_error_caches_zero (term : String) (cache : List (String × Nat))
    (fetch fetch2 : String → Except Unit Nat)
    (ht : clean_text term ≠ "")
    (hmiss : alistLookup cache (clean_text term) = none)
    (herr : fetch (clean_text term) = .error ()) :
    estimate_fame_score (some term) false cache true fetch =
      ⟨1, alistUpdate cache (clean_text term) 0, true⟩ ∧
    alistLookup (alistUpdate cache (clean_text term) 0) (clean_text term) = some 0 ∧
    estimate_fame_score (some term) false (alistUpdate cache (clean_text term) 0) true
      fetch2 = ⟨1, alistUpdate cache (clean_text term) 0, false⟩ ∧
    estimate_fame_score none false cache true fetch = ⟨4, cache, false⟩ ∧
    (1 : Int) < 4 := by
  refine ⟨?_, alistLookup_update_self cache (clean_text term) 0, ?_, rfl, by decide⟩
  · have hshow : estimate_fame_score (some term) false cache true fetch =
        (if clean_text term = "" then (⟨4, cache, false⟩ : FameResult)
         else
           match alistLookup cache (clean_text term) with
           | some h => ⟨totalhits_to_fame_score h, cache, false⟩
           | none =>
             ⟨totalhits_to_fame_score
                (match fetch (clean_text term) with | .ok h => h | .error _ => 0),
              alistUpdate cache (clean_text term)
                (match fetch (clean_text term) with | .ok h => h | .error _ => 0),
              true⟩) := rfl
    rw [hshow, if_neg ht, hmiss, herr]
    rfl
  · have hshow : estimate_fame_score (some term) false
        (alistUpdate cache (clean_text term) 0) true fetch2 =
        (if clean_text term = "" then
          (⟨4, alistUpdate cache (clean_text term) 0, false⟩ : FameResult)
         else
           match alistLookup (alistUpdate cache (clean_text term) 0) (clean_text term) with
           | some h =>
             ⟨totalhits_to_fame_score h, alistUpdate cache (clean_text term) 0, false⟩
           | none =>
             ⟨totalhits_to_fame_score
                (match fetch2 (clean_text term) with | .ok h => h | .error _ => 0),
              alistUpdate (alistUpdate cache (clean_text term) 0) (clean_text term)
                (match fetch2 (clean_text term) with | .ok h => h | .error _ => 0),
              true⟩) := rfl
    rw [hshow, if_neg ht, alistLookup_update_self cache (clean_text term) 0]
    rfl

/-- Witness for C10 at a concrete input: an erroring search oracle on a
fresh term caches 0 hits and yields score 1; a second call with a
different oracle returns the cached result without querying. -/
theorem c10_fame_error_caches_zero_witness :
    estimate_fame_score (some "alpha") false [] true (fun _ => .error ()) =
      ⟨1, [("alpha", 0)], true⟩ ∧
    estimate_fame_score (some "alpha") false [("alpha", 0)] true (fun _ => .ok 7) =
      ⟨1, [("alpha", 0)], false⟩ := by
  have h := c10_fame_error_caches_zero "alpha" [] (fun _ => .error ()) (fun _ => .ok 7)
    (by decide) (by decide) rfl
  exact ⟨h.1, h.2.2.1⟩

theorem lookupPy_ok (table : List (Nat × String)) (k : Nat)
    (h : (alistLookup table k).isSome = true) : ∃ v, lookupPy table k = .ok v := by
  obtain ⟨v, hv⟩ := Option.isSome_iff_exists.mp h
  exact ⟨v, by unfold lookupPy; rw [hv]⟩

theorem en_under_20_keys : ∀ k : Nat, k ≤ 19 → (alistLookup EN_UNDER_20 k).isSome = true := by
  decide

theorem en_tens_keys : ∀ k : Nat, k ≤ 90 → 20 ≤ k → k % 10 = 0 →
    (alistLookup EN_TENS k).isSome = true := by
  decide

theorem english_words_ok_aux :
    ∀ m : Nat, ∀ n : Int, n.toNat = m → 0 ≤ n → n ≤ 999 →
      ∃ s, english_words_upto_999 n = .ok s := by
  intro m
  induction m using Nat.strong_induction_on with
  | _ m ih =>
    intro n hm h0 h999
    rw [english_words_upto_999]
    rw [if_neg (by omega : ¬¬(0 ≤ n ∧ n ≤ 999))]
    by_cases h20 : n < 20
    · rw [dif_pos h20]
      exact lookupPy_ok _ _ (en_under_20_keys n.toNat (by omega))
    · rw [dif_neg h20]
      by_cases h100 : n < 100
      · rw [dif_pos h100]
        have htens : (alistLookup EN_TENS (n / 10 * 10).toNat).isSome = true := by
          apply en_tens_keys <;> omega
        by_cases hu : n % 10 = 0
        · rw [if_pos hu]
          exact lookupPy_ok _ _ htens
        · rw [if_neg hu]
          obtain ⟨a, ha⟩ := lookupPy_ok _ _ htens
          obtain ⟨b, hb⟩ := lookupPy_ok _ _ (en_under_20_keys (n % 10).toNat (by omega))
          exact ⟨a ++ "-" ++ b, by rw [ha, hb]; rfl⟩
      · rw [dif_neg h100]
        have hh : (alistLookup EN_UNDER_20 (n / 100).toNat).isSome = true :=
          en_under_20_keys _ (by omega)
        by_cases hr : n % 100 = 0
        · rw [dif_pos hr]
          obtain ⟨a, ha⟩ := lookupPy_ok _ _ hh
          exact ⟨a ++ " hundred", by rw [ha]; rfl⟩
        · rw [dif_neg hr]
          obtain ⟨a, ha⟩ := lookupPy_ok _ _ hh
          obtain ⟨w, hw⟩ := ih (n % 100).toNat (by omega) (n % 100) rfl (by omega)
            (by omega)
          exact ⟨a ++ " hundred " ++ w, by rw [ha, hw]; rfl⟩

theorem to_kanji_ok (n : Int) (digits : List (Nat × String)) (ten hundred : String)
    (h0 : 0 ≤ n) (h999 : n ≤ 999)
    (hd : ∀ k : Nat, k ≤ 9 → (alistLookup digits k).isSome = true) :
    ∃ s, to_kanji_upto_999 n digits ten hundred = .ok s := by
  unfold to_kanji_upto_999
  by_cases hz : n = 0
  · rw [if_pos hz]
    exact lookupPy_ok _ _ (hd 0 (by norm_num))
  · rw [if_neg hz, if_neg (by omega : ¬¬(0 ≤ n ∧ n ≤ 999))]
    simp only []
    have hp1 : ∃ a, (if n / 100 = 0 then pure []
        else if n / 100 = 1 then pure [hundred]
        else do
          let d ← lookupPy digits (n / 100).toNat
          pure [d ++ hundred] : Except PyErr (List String)) = .ok a := by
      by_cases h1 : n / 100 = 0
      · rw [if_pos h1]; exact ⟨[], rfl⟩
      · rw [if_neg h1]
        by_cases h2 : n / 100 = 1
        · rw [if_pos h2]; exact ⟨[hundred], rfl⟩
        · rw [if_neg h2]
          obtain ⟨d, hd'⟩ := lookupPy_ok digits (n / 100).toNat (hd _ (by omega))
          exact ⟨[d ++ hundred], by rw [hd']; rfl⟩
    have hp2 : ∃ a, (if n / 10 % 10 = 0 then pure []
        else if n / 10 % 10 = 1 then pure [ten]
        else do
          let d ← lookupPy digits (n / 10 % 10).toNat
          pure [d ++ ten] : Except PyErr (List String)) = .ok a := by
      by_cases h1 : n / 10 % 10 = 0
      · rw [if_pos h1]; exact ⟨[], rfl⟩
      · rw [if_neg h1]
        by_cases h2 : n / 10 % 10 = 1
        · rw [if_pos h2]; exact ⟨[ten], rfl⟩
        · rw [if_neg h2]
          obtain ⟨d, hd'⟩ := lookupPy_ok digits (n / 10 % 10).toNat (hd _ (by omega))
          exact ⟨[d ++ ten], by rw [hd']; rfl⟩
    have hp3 : ∃ a, (if n % 10 = 0 then pure []
        else do
          let d ← lookupPy digits (n % 10).toNat
          pure [d] : Except PyErr (List String)) = .ok a := by
      by_cases h1 : n % 10 = 0
      · rw [if_pos h1]; exact ⟨[], rfl⟩
      · rw [if_neg h1]
        obtain ⟨d, hd'⟩ := lookupPy_ok digits (n % 10).toNat (hd _ (by omega))
        exact ⟨[d], by rw [hd']; rfl⟩
    obtain ⟨a, ha⟩ := hp1
    obtain ⟨b, hb⟩ := hp2
    obtain ⟨c, hc⟩ := hp3
    exact ⟨String.join (a ++ b ++ c), by rw [ha, hb, hc]; rfl⟩

/-- C8: the culture-format converters `to_kanji_upto_999` and
`english_words_upto_999` raise `ValueError` for every integer outside
`[0, 999]`, and return normally for every integer inside the range
(for `to_kanji_upto_999`, whenever the digit table has entries for
0-9, as the tables in the source do). -/
theorem c8_culture_format_range (n : Int) (digits : List (Nat × String))
    (ten hundred : String) :
    ((0 ≤ n ∧ n ≤ 999) →
      ((∀ k : Nat, k ≤ 9 → (alistLookup digits k).isSome = true) →
        ∃ s, to_kanji_upto_999 n digits ten hundred = .ok s) ∧
      ∃ s, english_words_upto_999 n = .ok s) ∧
    (¬(0 ≤ n ∧ n ≤ 999) →
      to_kanji_upto_999 n digits ten hundred =
        .error (.valueError "Supported range is 0..999") ∧
      english_words_upto_999 n = .error (.valueError "Supported range is 0..999")) := by
  constructor
  · intro h
    exact ⟨fun hd => to_kanji_ok n digits ten hundred h.1 h.2 hd,
      english_words_ok_aux n.toNat n rfl h.1 h.2⟩
  · intro h
    constructor
    · unfold to_kanji_upto_999
      rw [if_neg (by omega : ¬n = 0), if_pos h]
    · rw [english_words_upto_999, if_pos h]

theorem exceptBindOk {e a b : Type} (x : a) (f : a -> Except e b) :
    (do let v <- Except.ok x; f v) = f x := rfl

/-- Witness for C8 at a concrete input: `n = 5` with the kanji digit
table converts successfully under both converters. -/
theorem c8_culture_format_range_witness :
    ((∃ s, to_kanji_upto_999 5 KANJI_DIGITS "十" "百" = .ok s) ∧
      ∃ s, english_words_upto_999 5 = .ok s) ∧
    to_kanji_upto_999 (-3) KANJI_DIGITS "十" "百" =
      .error (.valueError "Supported range is 0..999") := by
  have h := c8_culture_format_range (5 : Int) KANJI_DIGITS "十" "百"
  have h2 := (c8_culture_format_range (-3 : Int) KANJI_DIGITS "十" "百").2 (by omega)
  have h3 := h.1 (by omega)
  exact ⟨⟨h3.1 (by decide), h3.2⟩, h2.1⟩

theorem extract_property_from_title_spec (env : WikiEnv) (title hint : String) :
    extract_property_candidate_sentences_from_title env title hint =
      (match env.fetchSections title with
       | .error e => .error e
       | .ok sections =>
         if sections.isEmpty then .ok []
         else
           match findTargetSection sections hint with
           | none => .ok []
           | some target =>
             match env.fetchSectionWikitext title target.index with
             | .error e => .error e
             | .ok wikitext =>
               if wikitext = "" then .ok []
               else .ok (extract_property_candidate_sentences_from_plain_text
                 (wikitext_to_plain_text wikitext) 12)) := by
  unfold extract_property_candidate_sentences_from_title
  cases env.fetchSections title with
  | error e => rfl
  | ok sections =>
    rw [exceptBindOk]
    cases sections with
    | nil => rfl
    | cons a rest =>
      show _ = (match findTargetSection (a :: rest) hint with
        | none => Except.ok []
        | some target =>
          match env.fetchSectionWikitext title target.index with
          | Except.error e => Except.error e
          | Except.ok wikitext =>
            if wikitext = "" then Except.ok []
            else Except.ok (extract_property_candidate_sentences_from_plain_text
              (wikitext_to_plain_text wikitext) 12))
      cases hf : findTargetSection (a :: rest) hint with
      | none => rfl
      | some target =>
        show (do
          let wikitext <- env.fetchSectionWikitext title target.index
          if wikitext = "" then pure []
          else pure (extract_property_candidate_sentences_from_plain_text
            (wikitext_to_plain_text wikitext) 12)) =
          (match env.fetchSectionWikitext title target.index with
          | Except.error e => Except.error e
          | Except.ok wikitext =>
            if wikitext = "" then Except.ok []
            else Except.ok (extract_property_candidate_sentences_from_plain_text
              (wikitext_to_plain_text wikitext) 12))
        cases hw : env.fetchSectionWikitext title target.index with
        | error e => rfl
        | ok wikitext =>
          rw [exceptBindOk]
          by_cases hwe : wikitext = ""
          · simp only [hwe]
            rfl
          · simp only [if_neg hwe]
            rfl
theorem extract_other_from_title_spec (env : WikiEnv) (title hint : String) :
    extract_other_candidate_items_from_title env title hint =
      (match env.fetchSections title with
       | .error e => .error e
       | .ok sections =>
         if sections.isEmpty then .ok []
         else
           match findTargetSection sections hint with
           | none => .ok []
           | some target =>
             match env.fetchSectionWikitext title target.index with
             | .error e => .error e
             | .ok wikitext =>
               if wikitext = "" then .ok []
               else .ok (extract_other_candidate_items_from_plain_text
                 (wikitext_to_plain_text_keep_newlines wikitext) 16)) := by
  unfold extract_other_candidate_items_from_title
  cases env.fetchSections title with
  | error e => rfl
  | ok sections =>
    rw [exceptBindOk]
    cases sections with
    | nil => rfl
    | cons a rest =>
      show _ = (match findTargetSection (a :: rest) hint with
        | none => Except.ok []
        | some target =>
          match env.fetchSectionWikitext title target.index with
          | Except.error e => Except.error e
          | Except.ok wikitext =>
            if wikitext = "" then Except.ok []
            else Except.ok (extract_other_candidate_items_from_plain_text
              (wikitext_to_plain_text_keep_newlines wikitext) 16))
      cases hf : findTargetSection (a :: rest) hint with
      | none => rfl
      | some target =>
        show (do
          let wikitext <- env.fetchSectionWikitext title target.index
          if wikitext = "" then pure []
          else pure (extract_other_candidate_items_from_plain_text
            (wikitext_to_plain_text_keep_newlines wikitext) 16)) =
          (match env.fetchSectionWikitext title target.index with
          | Except.error e => Except.error e
          | Except.ok wikitext =>
            if wikitext = "" then Except.ok []
            else Except.ok (extract_other_candidate_items_from_plain_text
              (wikitext_to_plain_text_keep_newlines wikitext) 16))
        cases hw : env.fetchSectionWikitext title target.index with
        | error e => rfl
        | ok wikitext =>
          rw [exceptBindOk]
          by_cases hwe : wikitext = ""
          · simp only [hwe]
            rfl
          · simp only [if_neg hwe]
            rfl
/-- C3 counterexample: when the section-list fetch raises, both
extractors propagate the error to their caller instead of returning an
empty candidate list, refuting the claim that network errors during
section lookup are caught inside the extractors. -/
theorem c3_extract_error_propagates_counterexample :
    extract_property_candidate_sentences_from_title
      ⟨fun _ => Except.error (), fun _ _ => Except.ok "", fun _ => Except.ok 0⟩
      "5" "性質" = Except.error () ∧
    extract_other_candidate_items_from_title
      ⟨fun _ => Except.error (), fun _ _ => Except.ok "", fun _ => Except.ok 0⟩
      "5" "その他" = Except.error () ∧
    (Except.error () : Except Unit (List String)) ≠ Except.ok [] :=
  ⟨rfl, rfl, fun h => Except.noConfusion h⟩

/-- C3 (amended): for every oracle environment, title and hint, (a) if
the section list is fetched successfully and no section matches the
hint (exact, then prefix, then substring), both extractors return an
empty list; (b) if the section-list fetch raises, both extractors
propagate the exception to their caller; (c) it is the per-number
`try/except` of the cache builders, not the extractors, that converts
such an exception into an empty candidate list. -/
theorem c3_no_match_empty_and_error_to_caller (env : WikiEnv) (title hint : String) :
    (∀ sections, env.fetchSections title = Except.ok sections →
      findTargetSection sections hint = none →
      extract_property_candidate_sentences_from_title env title hint = Except.ok [] ∧
      extract_other_candidate_items_from_title env title hint = Except.ok []) ∧
    (∀ e, env.fetchSections title = Except.error e →
      extract_property_candidate_sentences_from_title env title hint = Except.error e ∧
      extract_other_candidate_items_from_title env title hint = Except.error e) ∧
    (∀ e, extract_property_candidate_sentences_from_title env title "性質" = Except.error e →
      fetch_property_candidates_step env title = []) ∧
    (∀ e, extract_other_candidate_items_from_title env title "その他" = Except.error e →
      fetch_other_candidates_step env title = []) := by
  refine ⟨fun sections hs hnone => ⟨?_, ?_⟩, fun e he => ⟨?_, ?_⟩,
    fun e he => ?_, fun e he => ?_⟩
  · rw [extract_property_from_title_spec, hs]
    show (if sections.isEmpty then Except.ok []
      else match findTargetSection sections hint with
      | none => Except.ok []
      | some target =>
        match env.fetchSectionWikitext title target.index with
        | Except.error e => Except.error e
        | Except.ok wikitext =>
          if wikitext = "" then Except.ok []
          else Except.ok (extract_property_candidate_sentences_from_plain_text
            (wikitext_to_plain_text wikitext) 12)) = Except.ok []
    rw [hnone]
    by_cases he : sections.isEmpty = true
    · rw [if_pos he]
    · rw [if_neg he]
  · rw [extract_other_from_title_spec, hs]
    show (if sections.isEmpty then Except.ok []
      else match findTargetSection sections hint with
      | none => Except.ok []
      | some target =>
        match env.fetchSectionWikitext title target.index with
        | Except.error e => Except.error e
        | Except.ok wikitext =>
          if wikitext = "" then Except.ok []
          else Except.ok (extract_other_candidate_items_from_plain_text
            (wikitext_to_plain_text_keep_newlines wikitext) 16)) = Except.ok []
    rw [hnone]
    by_cases he : sections.isEmpty = true
    · rw [if_pos he]
    · rw [if_neg he]
  · rw [extract_property_from_title_spec, he]
  · rw [extract_other_from_title_spec, he]
  · unfold fetch_property_candidates_step
    rw [he]
  · unfold fetch_other_candidates_step
    rw [he]

/-- Concrete instantiation of the amended C3 statement: a one-section
document whose only heading is 概要 matches neither hint, so both
extractors return the empty list; with an erroring section fetch the
caller-side catch yields the empty candidate list. -/
theorem c3_no_match_empty_and_error_to_caller_witness :
    (extract_property_candidate_sentences_from_title
      ⟨fun _ => Except.ok [⟨"1", "概要"⟩], fun _ _ => Except.ok "", fun _ => Except.ok 0⟩
      "7" "性質" = Except.ok [] ∧
     extract_other_candidate_items_from_title
      ⟨fun _ => Except.ok [⟨"1", "概要"⟩], fun _ _ => Except.ok "", fun _ => Except.ok 0⟩
      "7" "性質" = Except.ok []) ∧
    fetch_property_candidates_step
      ⟨fun _ => Except.error (), fun _ _ => Except.ok "", fun _ => Except.ok 0⟩ "7" = [] ∧
    fetch_other_candidates_step
      ⟨fun _ => Except.error (), fun _ _ => Except.ok "", fun _ => Except.ok 0⟩ "7" = [] :=
  ⟨(c3_no_match_empty_and_error_to_caller
      ⟨fun _ => Except.ok [⟨"1", "概要"⟩], fun _ _ => Except.ok "", fun _ => Except.ok 0⟩
      "7" "性質").1 [⟨"1", "概要"⟩] rfl (by decide),
   (c3_no_match_empty_and_error_to_caller
      ⟨fun _ => Except.error (), fun _ _ => Except.ok "", fun _ => Except.ok 0⟩
      "7" "性質").2.2.1 () rfl,
   (c3_no_match_empty_and_error_to_caller
      ⟨fun _ => Except.error (), fun _ _ => Except.ok "", fun _ => Except.ok 0⟩
      "7" "性質").2.2.2 () rfl⟩
theorem load_property_fetched_eq (file : Option NumberListsFile)
    (searchFile : List (String × Nat)) (pinsConfig : List (Int × PinsEntry))
    (thresholdConfig : List (Int × ThresholdsEntry)) (refresh : Bool)
    (numbers : List Int) (offline : Bool) (env : WikiEnv) :
    (load_or_build_wikipedia_property_sentence_sets_for_numbers file searchFile
        pinsConfig thresholdConfig refresh numbers offline env).fetched =
      List.insertionSort intLE (toFetchOf offline refresh numbers
        (match file with | none => [] | some f => parseCachedLists f.main)
        (match file with | none => [] | some f => parseCachedLists f.legacy)) := by
  unfold load_or_build_wikipedia_property_sentence_sets_for_numbers
  simp only []
  split
  next h => exact (List.isEmpty_iff.mp h).symm
  next h => rfl

theorem load_other_fetched_eq (file : Option NumberListsFile)
    (searchFile : List (String × Nat)) (pinsConfig : List (Int × PinsEntry))
    (thresholdConfig : List (Int × ThresholdsEntry)) (refresh : Bool)
    (numbers : List Int) (offline : Bool) (env : WikiEnv) :
    (load_or_build_wikipedia_other_item_sets_for_numbers file searchFile
        pinsConfig thresholdConfig refresh numbers offline env).fetched =
      List.insertionSort intLE (toFetchOf offline refresh numbers
        (match file with | none => [] | some f => parseCachedLists f.main)
        (match file with | none => [] | some f => parseCachedLists f.legacy)) := by
  unfold load_or_build_wikipedia_other_item_sets_for_numbers
  simp only []
  split
  next h => exact (List.isEmpty_iff.mp h).symm
  next h => rfl

theorem mem_toFetchOf (offline refresh : Bool) (numbers : List Int)
    (cA cL : List (Int × List String)) (n : Int) :
    n ∈ toFetchOf offline refresh numbers cA cL ↔
      offline = false ∧ n ∈ numbers ∧
        (refresh = true ∨ alistLookup cA n = none ∨ alistLookup cL n = none) := by
  unfold toFetchOf
  cases offline with
  | true => simp
  | false =>
    cases refresh with
    | true => simp [List.mem_dedup]
    | false =>
      simp [List.mem_filter, List.mem_dedup, Option.not_isSome_iff_eq_none,
        and_assoc, Bool.not_eq_true']
/-- C7: the numbers fetched by either cache coordinator are exactly
characterized by the flags and the parsed cache state: none when
offline; every requested number when refresh is set; otherwise exactly
the requested numbers missing from at least one of the two policy
caches. -/
theorem c7_fetched_set_characterization (file : Option NumberListsFile)
    (searchFile : List (String × Nat)) (pinsConfig : List (Int × PinsEntry))
    (thresholdConfig : List (Int × ThresholdsEntry)) (refresh : Bool)
    (numbers : List Int) (offline : Bool) (env : WikiEnv) (n : Int) :
    (n ∈ (load_or_build_wikipedia_property_sentence_sets_for_numbers file searchFile
        pinsConfig thresholdConfig refresh numbers offline env).fetched ↔
      offline = false ∧ n ∈ numbers ∧
        (refresh = true ∨
          alistLookup (match file with
            | none => [] | some f => parseCachedLists f.main) n = none ∨
          alistLookup (match file with
            | none => [] | some f => parseCachedLists f.legacy) n = none)) ∧
    (n ∈ (load_or_build_wikipedia_other_item_sets_for_numbers file searchFile
        pinsConfig thresholdConfig refresh numbers offline env).fetched ↔
      offline = false ∧ n ∈ numbers ∧
        (refresh = true ∨
          alistLookup (match file with
            | none => [] | some f => parseCachedLists f.main) n = none ∨
          alistLookup (match file with
            | none => [] | some f => parseCachedLists f.legacy) n = none)) := by
  constructor
  · rw [load_property_fetched_eq,
      (List.perm_insertionSort intLE _).mem_iff, mem_toFetchOf]
  · rw [load_other_fetched_eq,
      (List.perm_insertionSort intLE _).mem_iff, mem_toFetchOf]
theorem alistLookup_update_other {α β : Type} [DecidableEq α] (l : List (α × β))
    (k k' : α) (v : β) (h : k' ≠ k) :
    alistLookup (alistUpdate l k v) k' = alistLookup l k' := by
  induction l with
  | nil => simp [alistUpdate, alistLookup, Ne.symm h]
  | cons kv rest ih =>
    cases kv with
    | mk a b =>
      by_cases hk : a = k
      · subst hk
        simp [alistUpdate, alistLookup, Ne.symm h]
      · simp [alistUpdate, alistLookup, hk, ih]

theorem alistUpdate_of_not_mem {α β : Type} [DecidableEq α] (l : List (α × β)) (k : α)
    (v : β) (h : k ∉ l.map Prod.fst) : alistUpdate l k v = l ++ [(k, v)] := by
  induction l with
  | nil => rfl
  | cons kv rest ih =>
    cases kv with
    | mk a b =>
      simp only [List.map_cons, List.mem_cons] at h
      push_neg at h
      simp [alistUpdate, Ne.symm h.1, ih h.2]

theorem alistUpdate_map_fst {α β : Type} [DecidableEq α] (l : List (α × β)) (k : α)
    (v : β) :
    (alistUpdate l k v).map Prod.fst =
      if k ∈ l.map Prod.fst then l.map Prod.fst else l.map Prod.fst ++ [k] := by
  induction l with
  | nil => simp [alistUpdate]
  | cons kv rest ih =>
    cases kv with
    | mk a b =>
      by_cases hk : a = k
      · subst hk
        simp [alistUpdate]
      · have hka : ¬(k = a) := fun hh => hk hh.symm
        simp only [alistUpdate, if_neg hk, List.map_cons, ih]
        by_cases hm : k ∈ rest.map Prod.fst
        · rw [if_pos hm, if_pos (List.mem_cons.mpr (Or.inr hm))]
        · rw [if_neg hm, if_neg (by simp [List.mem_cons, hka, hm]), List.cons_append]

theorem alistUpdate_keys_nodup {α β : Type} [DecidableEq α] (l : List (α × β)) (k : α)
    (v : β) (h : (l.map Prod.fst).Nodup) : ((alistUpdate l k v).map Prod.fst).Nodup := by
  rw [alistUpdate_map_fst]
  by_cases hm : k ∈ l.map Prod.fst
  · rw [if_pos hm]; exact h
  · rw [if_neg hm]
    simp [List.nodup_append, h, hm]

theorem alistUpdate_mem {α β : Type} [DecidableEq α] (l : List (α × β)) (k : α) (v : β) :
    ∀ p ∈ alistUpdate l k v, p = (k, v) ∨ p ∈ l := by
  induction l with
  | nil =>
    intro p hp
    simp only [alistUpdate, List.mem_singleton] at hp
    exact Or.inl hp
  | cons kv rest ih =>
    cases kv with
    | mk a b =>
      intro p hp
      by_cases hk : a = k
      · subst hk
        simp only [alistUpdate, eq_self_iff_true, if_true, List.mem_cons] at hp
        rcases hp with h | h
        · exact Or.inl h
        · exact Or.inr (List.mem_cons_of_mem _ h)
      · simp only [alistUpdate, if_neg hk, List.mem_cons] at hp
        rcases hp with h | h
        · exact Or.inr (List.mem_cons.mpr (Or.inl h))
        · rcases ih p h with h2 | h2
          · exact Or.inl h2
          · exact Or.inr (List.mem_cons_of_mem _ h2)
theorem WFCache_nil : WFCache [] := ⟨List.nodup_nil, by simp⟩

theorem WFCache_perm {m m' : List (Int × List String)} (h : m.Perm m')
    (hw : WFCache m) : WFCache m' := by
  constructor
  · exact ((h.map Prod.fst).nodup_iff).mp hw.1
  · intro p hp
    exact hw.2 p (h.mem_iff.mpr hp)

theorem WFCache_update (m : List (Int × List String)) (n : Int) (v : List String)
    (h : WFCache m) (hv : v ≠ [] ∧ ∀ s ∈ v, pyStripStr s ≠ "") :
    WFCache (alistUpdate m n v) := by
  refine ⟨alistUpdate_keys_nodup _ _ _ h.1, ?_⟩
  intro p hp
  rcases alistUpdate_mem _ _ _ p hp with h2 | h2
  · subst h2
    exact hv
  · exact h.2 p h2

theorem WFCache_ite_update (m : List (Int × List String)) (n : Int) (v : List String)
    (h : WFCache m) (hv : ∀ s ∈ v, pyStripStr s ≠ "") :
    WFCache (if v.isEmpty then m else alistUpdate m n v) := by
  by_cases he : v.isEmpty
  · rw [if_pos he]; exact h
  · rw [if_neg he]
    exact WFCache_update m n v h ⟨by simpa [List.isEmpty_iff] using he, hv⟩

theorem parseCachedLists_wf_aux (its : List (Int × List String)) :
    ∀ acc, WFCache acc →
      WFCache (its.foldl (fun acc nv =>
        let lines := nv.2.filter (fun s => !(pyStripStr s = ""))
        if lines.isEmpty then acc else alistUpdate acc nv.1 lines) acc) := by
  induction its with
  | nil => intro acc h; exact h
  | cons nv rest ih =>
    intro acc h
    simp only [List.foldl_cons]
    apply ih
    by_cases hl : (nv.2.filter (fun s => !(pyStripStr s = ""))).isEmpty
    · rw [if_pos hl]; exact h
    · rw [if_neg hl]
      refine ⟨alistUpdate_keys_nodup _ _ _ h.1, ?_⟩
      intro p hp
      rcases alistUpdate_mem _ _ _ p hp with h2 | h2
      · subst h2
        refine ⟨by simpa [List.isEmpty_iff] using hl, ?_⟩
        intro s hs
        have hpred := List.of_mem_filter hs
        simpa using hpred
      · exact h.2 p h2

theorem parseCachedLists_wf (items : List (Int × List String)) :
    WFCache (parseCachedLists items) :=
  parseCachedLists_wf_aux items [] WFCache_nil

theorem parseCachedLists_id_aux (its : List (Int × List String)) :
    ∀ acc, (∀ k ∈ its.map Prod.fst, k ∉ acc.map Prod.fst) →
      (its.map Prod.fst).Nodup →
      (∀ p ∈ its, p.2 ≠ [] ∧ ∀ s ∈ p.2, pyStripStr s ≠ "") →
      its.foldl (fun acc nv =>
        let lines := nv.2.filter (fun s => !(pyStripStr s = ""))
        if lines.isEmpty then acc else alistUpdate acc nv.1 lines) acc = acc ++ its := by
  induction its with
  | nil => intro acc _ _ _; simp
  | cons nv rest ih =>
    intro acc hdisj hnodup hgood
    simp only [List.foldl_cons]
    have hg := hgood nv (List.mem_cons_self _ _)
    have hfilt : nv.2.filter (fun s => !(pyStripStr s = "")) = nv.2 := by
      rw [List.filter_eq_self]
      intro s hs
      simpa using hg.2 s hs
    have hne : ¬(nv.2.filter (fun s => !(pyStripStr s = ""))).isEmpty = true := by
      rw [hfilt]
      simpa [List.isEmpty_iff] using hg.1
    rw [if_neg hne, hfilt,
      alistUpdate_of_not_mem _ _ _ (hdisj nv.1 (by simp)),
      ih (acc ++ [(nv.1, nv.2)]) ?_ (List.Nodup.of_cons hnodup)
        (fun p hp => hgood p (List.mem_cons_of_mem _ hp))]
    · simp
    · intro k hk
      simp only [List.map_append, List.mem_append, List.map_cons, List.map_nil,
        List.mem_singleton, not_or]
      constructor
      · exact hdisj k (List.mem_cons_of_mem _ hk)
      · intro hkk
        subst hkk
        exact (List.nodup_cons.mp (by simpa using hnodup)).1 hk
theorem parseCachedLists_eq_self (m : List (Int × List String)) (h : WFCache m) :
    parseCachedLists m = m := by
  unfold parseCachedLists
  rw [parseCachedLists_id_aux m [] (by simp) h.1 h.2]
  simp

theorem restrictTo_aux (m : List (Int × List String)) :
    ∀ (numbers : List Int) (acc : List (Int × List String)),
      (∀ k, alistLookup acc k ≠ none → alistLookup acc k = alistLookup m k) →
      ∀ n, (n ∈ numbers ∨ alistLookup acc n = alistLookup m n) →
      alistLookup (numbers.foldl (fun acc n =>
        match alistLookup m n with
        | some v => alistUpdate acc n v
        | none => acc) acc) n = alistLookup m n := by
  intro numbers
  induction numbers with
  | nil =>
    intro acc hagree n hn
    rcases hn with h | h
    · exact absurd h (List.not_mem_nil n)
    · exact h
  | cons x rest ih =>
    intro acc hagree n hn
    simp only [List.foldl_cons]
    cases hmx : alistLookup m x with
    | none =>
      refine ih acc hagree n ?_
      rcases hn with h | h
      · rcases List.mem_cons.mp h with h1 | h1
        · subst h1
          right
          by_cases h0 : alistLookup acc n = none
          · rw [h0, hmx]
          · exact hagree n h0
        · exact Or.inl h1
      · exact Or.inr h
    | some v =>
      refine ih (alistUpdate acc x v) ?_ n ?_
      · intro k hk
        by_cases hkx : k = x
        · subst hkx
          rw [alistLookup_update_self]
          exact hmx.symm
        · rw [alistLookup_update_other _ _ _ _ hkx] at hk ⊢
          exact hagree k hk
      · rcases hn with h | h
        · rcases List.mem_cons.mp h with h1 | h1
          · subst h1
            right
            rw [alistLookup_update_self, hmx]
          · exact Or.inl h1
        · right
          by_cases hnx : n = x
          · subst hnx
            rw [alistLookup_update_self, hmx]
          · rw [alistLookup_update_other _ _ _ _ hnx]
            exact h

theorem restrictTo_lookup (m : List (Int × List String)) (numbers : List Int) (n : Int)
    (hn : n ∈ numbers) : alistLookup (restrictTo m numbers) n = alistLookup m n := by
  unfold restrictTo
  exact restrictTo_aux m numbers []
    (by intro k hk; simp [alistLookup] at hk) n (Or.inl hn)
theorem select_strings_good (candidates : List String) (tf cache : List (String × Nat))
    (off : Bool) (limit : Nat) (θ : Int) (kind : String) (pins : Option (List String))
    (fetch : String → Except Unit Nat) :
    ∀ x ∈ (select_by_importance candidates tf cache off limit θ kind pins fetch).1,
      pyStripStr x ≠ "" := by
  intro x hx
  have h := dedupClean_fixed candidates x
    (select_result_subset candidates tf cache off limit θ kind pins fetch x hx)
  rw [h.2.1]
  exact h.2.2.1

theorem select_legacy_strings_good (candidates : List String)
    (tf cache : List (String × Nat)) (off : Bool) (limit : Nat) (θ : Int) (kind : String)
    (pins : Option (List String)) (fetch : String → Except Unit Nat) :
    ∀ x ∈ (select_by_importance_legacy candidates tf cache off limit θ kind pins fetch).1,
      pyStripStr x ≠ "" := by
  intro x hx
  have h := dedupClean_fixed candidates x
    (select_legacy_result_subset candidates tf cache off limit θ kind pins fetch x hx)
  rw [h.2.1]
  exact h.2.2.1

theorem selectLoop_cons (nc : Int × List String) (rest : List (Int × List String))
    (tf : List (String × Nat)) (off : Bool) (pinOf : Int → Option (List String))
    (thrOf : Int → Int) (kind : String) (fetch : String → Except Unit Nat)
    (cA cL : List (Int × List String)) (sc : List (String × Nat)) :
    selectLoop (nc :: rest) tf off pinOf thrOf kind fetch cA cL sc =
      selectLoop rest tf off pinOf thrOf kind fetch
        (if (select_by_importance nc.2 tf sc off 3 (thrOf nc.1) kind (pinOf nc.1)
            fetch).1.isEmpty then cA
         else alistUpdate cA nc.1 (select_by_importance nc.2 tf sc off 3 (thrOf nc.1)
            kind (pinOf nc.1) fetch).1)
        (if (select_by_importance_legacy nc.2 tf (select_by_importance nc.2 tf sc off 3
            (thrOf nc.1) kind (pinOf nc.1) fetch).2 off 3 (thrOf nc.1) kind (pinOf nc.1)
            fetch).1.isEmpty then cL
         else alistUpdate cL nc.1 (select_by_importance_legacy nc.2 tf
            (select_by_importance nc.2 tf sc off 3 (thrOf nc.1) kind (pinOf nc.1)
            fetch).2 off 3 (thrOf nc.1) kind (pinOf nc.1) fetch).1)
        (select_by_importance_legacy nc.2 tf (select_by_importance nc.2 tf sc off 3
            (thrOf nc.1) kind (pinOf nc.1) fetch).2 off 3 (thrOf nc.1) kind (pinOf nc.1)
            fetch).2 := rfl

theorem selectLoop_wf (tf : List (String × Nat)) (off : Bool)
    (pinOf : Int → Option (List String)) (thrOf : Int → Int) (kind : String)
    (fetch : String → Except Unit Nat) :
    ∀ (fc : List (Int × List String)) (cA cL : List (Int × List String))
      (sc : List (String × Nat)), WFCache cA → WFCache cL →
      WFCache (selectLoop fc tf off pinOf thrOf kind fetch cA cL sc).1 ∧
      WFCache (selectLoop fc tf off pinOf thrOf kind fetch cA cL sc).2.1 := by
  intro fc
  induction fc with
  | nil => intro cA cL sc hA hL; exact ⟨hA, hL⟩
  | cons nc rest ih =>
    intro cA cL sc hA hL
    rw [selectLoop_cons]
    refine ih _ _ _ ?_ ?_
    · exact WFCache_ite_update _ _ _ hA
        (select_strings_good nc.2 tf sc off 3 (thrOf nc.1) kind (pinOf nc.1) fetch)
    · exact WFCache_ite_update _ _ _ hL
        (select_legacy_strings_good nc.2 tf _ off 3 (thrOf nc.1) kind (pinOf nc.1) fetch)
theorem load_property_no_fetch_eq (file : Option NumberListsFile)
    (searchFile : List (String × Nat)) (pinsConfig : List (Int × PinsEntry))
    (thresholdConfig : List (Int × ThresholdsEntry)) (refresh : Bool)
    (numbers : List Int) (offline : Bool) (env : WikiEnv)
    (h : (load_or_build_wikipedia_property_sentence_sets_for_numbers file searchFile
      pinsConfig thresholdConfig refresh numbers offline env).fetched = []) :
    load_or_build_wikipedia_property_sentence_sets_for_numbers file searchFile
      pinsConfig thresholdConfig refresh numbers offline env =
    ⟨restrictTo (match file with | none => [] | some f => parseCachedLists f.main) numbers,
     restrictTo (match file with | none => [] | some f => parseCachedLists f.legacy) numbers,
     file, none, []⟩ := by
  rw [load_property_fetched_eq] at h
  unfold load_or_build_wikipedia_property_sentence_sets_for_numbers
  simp only []
  rw [if_pos (List.isEmpty_iff.mpr h)]
  cases file with
  | none => rfl
  | some f => rfl

theorem load_property_newFile_wf (file : Option NumberListsFile)
    (searchFile : List (String × Nat)) (pinsConfig : List (Int × PinsEntry))
    (thresholdConfig : List (Int × ThresholdsEntry)) (refresh : Bool)
    (numbers : List Int) (offline : Bool) (env : WikiEnv)
    (hw : (load_or_build_wikipedia_property_sentence_sets_for_numbers file searchFile
      pinsConfig thresholdConfig refresh numbers offline env).fetched ≠ []) :
    ∀ f1, (load_or_build_wikipedia_property_sentence_sets_for_numbers file searchFile
      pinsConfig thresholdConfig refresh numbers offline env).newFile = some f1 →
    WFCache f1.main ∧ WFCache f1.legacy := by
  intro f1 hf
  cases file with
  | none =>
    unfold load_or_build_wikipedia_property_sentence_sets_for_numbers at hw hf
    simp only [] at hw hf
    split at hf
    next hcond =>
      rw [if_pos hcond] at hw
      exact absurd rfl hw
    next hcond =>
      have hf2 := Option.some.inj (show some (NumberListsFile.mk _ _) = some f1 from hf)
      subst hf2
      exact ⟨WFCache_perm (List.perm_insertionSort intPairLE _).symm
          (selectLoop_wf _ _ _ _ _ _ _ _ _ _ WFCache_nil WFCache_nil).1,
        WFCache_perm (List.perm_insertionSort intPairLE _).symm
          (selectLoop_wf _ _ _ _ _ _ _ _ _ _ WFCache_nil WFCache_nil).2⟩
  | some f0 =>
    unfold load_or_build_wikipedia_property_sentence_sets_for_numbers at hw hf
    simp only [] at hw hf
    split at hf
    next hcond =>
      rw [if_pos hcond] at hw
      exact absurd rfl hw
    next hcond =>
      have hf2 := Option.some.inj (show some (NumberListsFile.mk _ _) = some f1 from hf)
      subst hf2
      exact ⟨WFCache_perm (List.perm_insertionSort intPairLE _).symm
          (selectLoop_wf _ _ _ _ _ _ _ _ _ _
            (parseCachedLists_wf f0.main) (parseCachedLists_wf f0.legacy)).1,
        WFCache_perm (List.perm_insertionSort intPairLE _).symm
          (selectLoop_wf _ _ _ _ _ _ _ _ _ _
            (parseCachedLists_wf f0.main) (parseCachedLists_wf f0.legacy)).2⟩
/-- C6: persist-then-reload round trip for the property cache
coordinator.  If a first call actually fetched (and therefore wrote the
cache file, yielding `f1`), then a second call on `f1` with
`refresh = false` that triggers no new fetching returns, for every
requested number, exactly the persisted current-policy and
legacy-policy lists of `f1`. -/
theorem c6_persist_reload_round_trip (file0 : Option NumberListsFile)
    (sf1 : List (String × Nat)) (pins1 : List (Int × PinsEntry))
    (thr1 : List (Int × ThresholdsEntry)) (refresh1 : Bool) (numbers1 : List Int)
    (offline1 : Bool) (env1 : WikiEnv) (f1 : NumberListsFile)
    (sf2 : List (String × Nat)) (pins2 : List (Int × PinsEntry))
    (thr2 : List (Int × ThresholdsEntry)) (numbers2 : List Int) (offline2 : Bool)
    (env2 : WikiEnv)
    (hw : (load_or_build_wikipedia_property_sentence_sets_for_numbers file0 sf1 pins1 thr1
        refresh1 numbers1 offline1 env1).fetched ≠ [])
    (hf : (load_or_build_wikipedia_property_sentence_sets_for_numbers file0 sf1 pins1 thr1
        refresh1 numbers1 offline1 env1).newFile = some f1)
    (hnf : (load_or_build_wikipedia_property_sentence_sets_for_numbers (some f1) sf2 pins2
        thr2 false numbers2 offline2 env2).fetched = []) :
    ∀ n ∈ numbers2,
      alistLookup (load_or_build_wikipedia_property_sentence_sets_for_numbers (some f1)
        sf2 pins2 thr2 false numbers2 offline2 env2).cur n = alistLookup f1.main n ∧
      alistLookup (load_or_build_wikipedia_property_sentence_sets_for_numbers (some f1)
        sf2 pins2 thr2 false numbers2 offline2 env2).legacy n =
          alistLookup f1.legacy n := by
  intro n hn
  obtain ⟨hwA, hwL⟩ := load_property_newFile_wf file0 sf1 pins1 thr1 refresh1 numbers1
    offline1 env1 hw f1 hf
  have h2 := load_property_no_fetch_eq (some f1) sf2 pins2 thr2 false numbers2 offline2
    env2 hnf
  rw [h2]
  constructor
  · show alistLookup (restrictTo (parseCachedLists f1.main) numbers2) n =
      alistLookup f1.main n
    rw [parseCachedLists_eq_self f1.main hwA]
    exact restrictTo_lookup f1.main numbers2 n hn
  · show alistLookup (restrictTo (parseCachedLists f1.legacy) numbers2) n =
      alistLookup f1.legacy n
    rw [parseCachedLists_eq_self f1.legacy hwL]
    exact restrictTo_lookup f1.legacy numbers2 n hn

/-- Concrete round trip: a first refreshing call on a one-entry cache
with an offline-erroring network keeps the cached entry; the reloading
call returns it unchanged. -/
theorem c6_persist_reload_round_trip_witness :
    alistLookup (load_or_build_wikipedia_property_sentence_sets_for_numbers
        (some ⟨[((5 : Int), ["cached line"])], [((5 : Int), ["cached line"])]⟩) [] [] []
        false [5] false
        ⟨fun _ => Except.error (), fun _ _ => Except.ok "", fun _ => Except.ok 0⟩).cur 5
      = alistLookup [((5 : Int), ["cached line"])] 5 ∧
    alistLookup (load_or_build_wikipedia_property_sentence_sets_for_numbers
        (some ⟨[((5 : Int), ["cached line"])], [((5 : Int), ["cached line"])]⟩) [] [] []
        false [5] false
        ⟨fun _ => Except.error (), fun _ _ => Except.ok "", fun _ => Except.ok 0⟩).legacy 5
      = alistLookup [((5 : Int), ["cached line"])] 5 :=
  c6_persist_reload_round_trip
    (some ⟨[(5, ["cached line"])], [(5, ["cached line"])]⟩) [] [] [] true [5] false
    ⟨fun _ => Except.error (), fun _ _ => Except.ok "", fun _ => Except.ok 0⟩
    ⟨[(5, ["cached line"])], [(5, ["cached line"])]⟩ [] [] [] [5] false
    ⟨fun _ => Except.error (), fun _ _ => Except.ok "", fun _ => Except.ok 0⟩
    (by decide) (by decide) (by decide) 5 (by decide)
